import Mathlib

/-!
Shallow embedding of the qdrant collection core: the segment holder, the
update pipeline and the multi-segment read pipeline (search, scroll,
recommend, retrieve).  The repository ships only the collection test suite
(`lib/collection/tests/collection_test.rs`, `lib/collection/src/tests/mod.rs`)
and `src/settings.rs`; the collection implementation itself is absent, so the
operational definitions below are modelled from the specification, keeping
the type and operation names used by the tests.
-/

namespace Qdrant

/-- Point id, as used by `segment::types::PointIdType` (an unsigned integer). -/
abbrev PointIdType := Nat

/-- Segment id issued by the segment holder. -/
abbrev SegmentId := Nat

/-- Vector components.  The tests only ever use integral coordinates, and the
similarity metric is out of the spec's scope, so components are embedded as
integers. -/
abbrev VectorElementType := Int

abbrev VectorType := List VectorElementType

abbrev PayloadKeyType := String

/-- A payload value; the tests only use the keyword (string) shortcut form. -/
abbrev PayloadInterface := String

/-- A point payload: a finite map from payload keys to values, embedded as an
association list. -/
abbrev TheMap := List (PayloadKeyType × PayloadInterface)

/-- `PointStruct` from `collection::operations::point_ops`. -/
structure PointStruct where
  id : PointIdType
  vector : VectorType
  payload : Option TheMap
deriving DecidableEq, Repr

/-- `Batch` from `collection::operations::point_ops`. -/
structure Batch where
  ids : List PointIdType
  vectors : List VectorType
  payloads : Option (List (Option TheMap))
deriving DecidableEq, Repr

/-- `HasIdCondition` from `segment::types`. -/
structure HasIdCondition where
  hasId : List PointIdType
deriving DecidableEq, Repr

/-- `Condition` from `segment::types`; the tests only exercise the
`HasId` variant. -/
inductive Condition where
  | hasId (cond : HasIdCondition)
deriving DecidableEq, Repr

/-- `Filter` from `segment::types`: `should` / `must` / `must_not` clause
lists. -/
structure Filter where
  should : Option (List Condition)
  must : Option (List Condition)
  mustNot : Option (List Condition)
deriving DecidableEq, Repr

/-- Modelled from the spec: filter expression evaluation is out of scope
"beyond their boolean contract"; a condition holds on a point exactly when
the point's id belongs to the `HasId` set. -/
def checkCondition (c : Condition) (p : PointStruct) : Bool :=
  match c with
  | .hasId cond => cond.hasId.contains p.id

/-- Modelled from the spec: a filter matches when some `should` clause holds
(vacuously if absent), all `must` clauses hold and no `must_not` clause
holds. -/
def checkFilter (f : Filter) (p : PointStruct) : Bool :=
  (match f.should with
   | none => true
   | some cs => cs.any (fun c => checkCondition c p)) &&
  (match f.must with
   | none => true
   | some cs => cs.all (fun c => checkCondition c p)) &&
  (match f.mustNot with
   | none => true
   | some cs => cs.all (fun c => !(checkCondition c p)))

/-- An absent filter matches every point. -/
def checkOptFilter (f : Option Filter) (p : PointStruct) : Bool :=
  match f with
  | none => true
  | some flt => checkFilter flt p

/-- `SetPayload` from `collection::operations::payload_ops`. -/
structure SetPayload where
  payload : TheMap
  points : List PointIdType
deriving DecidableEq, Repr

/-- `PayloadOps` from `collection::operations::payload_ops`; the spec's
update variants include `SetPayload(points, payload fields)` and
`ClearPayload(points)`. -/
inductive PayloadOps where
  | setPayload (op : SetPayload)
  | clearPayload (points : List PointIdType)
deriving DecidableEq, Repr

/-- The two insert forms accepted by `PointOperations::UpsertPoints`
(`Batch.into()` and `Vec<PointStruct>.into()` in the tests). -/
inductive PointInsertOperations where
  | batchPoints (batch : Batch)
  | pointsList (points : List PointStruct)
deriving DecidableEq, Repr

/-- `PointOperations` from `collection::operations::point_ops`. -/
inductive PointOperations where
  | upsertPoints (op : PointInsertOperations)
  | deletePoints (ids : List PointIdType)
  | deletePointsByFilter (filter : Filter)
deriving DecidableEq, Repr

/-- `CollectionUpdateOperations` from `collection::operations`. -/
inductive CollectionUpdateOperations where
  | pointOperation (op : PointOperations)
  | payloadOperation (op : PayloadOps)
deriving DecidableEq, Repr

/-- The list of points described by a batch: ids zipped with vectors, and
with the optional per-point payloads when present. -/
def Batch.points (b : Batch) : List PointStruct :=
  match b.payloads with
  | none => (b.ids.zip b.vectors).map (fun iv => ⟨iv.1, iv.2, none⟩)
  | some pls =>
      (b.ids.zip (b.vectors.zip pls)).map (fun x => ⟨x.1, x.2.1, x.2.2⟩)

/-- The points carried by either insert form. -/
def PointInsertOperations.points : PointInsertOperations → List PointStruct
  | .batchPoints b => b.points
  | .pointsList ps => ps

/-- `UpdateStatus` from `collection::operations::types`. -/
inductive UpdateStatus where
  | acknowledged
  | completed
deriving DecidableEq, Repr

/-- `UpdateResult` from `collection::operations::types` (restricted to the
status field the spec describes). -/
structure UpdateResult where
  status : UpdateStatus
deriving DecidableEq, Repr

/-- Collection-level errors: the spec's `RoutingError` (no appendable
segment) and the read-path missing-exemplar error for `recommend`. -/
inductive CollectionError where
  | noAppendableSegment
  | notFoundError (missedPointId : PointIdType)
deriving DecidableEq, Repr

instance [DecidableEq ε] [DecidableEq α] : DecidableEq (Except ε α) :=
  fun x y =>
  match x, y with
  | .ok a, .ok b =>
    match decEq a b with
    | isTrue h => isTrue (h ▸ rfl)
    | isFalse h => isFalse (fun hc => h (Except.ok.inj hc))
  | .error a, .error b =>
    match decEq a b with
    | isTrue h => isTrue (h ▸ rfl)
    | isFalse h => isFalse (fun hc => h (Except.error.inj hc))
  | .ok _, .error _ => isFalse (fun hc => Except.noConfusion hc)
  | .error _, .ok _ => isFalse (fun hc => Except.noConfusion hc)

/-- A segment's point store.  The segment's internal index is out of scope;
it is embedded as the list of points it holds. -/
abbrev Segment := List PointStruct

/-- `SegmentEntry`: a segment plus its appendable flag, as owned by the
holder. -/
structure SegmentEntry where
  segment : Segment
  appendable : Bool
deriving DecidableEq, Repr

/-- Modelled from the spec: `SegmentHolder` is a mapping
`SegmentId → SegmentEntry` with monotonically issued fresh ids, embedded as
an association list plus the next fresh id. -/
structure SegmentHolder where
  segments : List (SegmentId × SegmentEntry)
  maxId : SegmentId
deriving DecidableEq, Repr

/-- Modelled from the spec: `add(segment)` issues a fresh id, inserts and
returns it. -/
def SegmentHolder.add (h : SegmentHolder) (e : SegmentEntry) :
    SegmentId × SegmentHolder :=
  (h.maxId, { segments := (h.maxId, e) :: h.segments, maxId := h.maxId + 1 })

/-- Modelled from the spec: `remove(ids)` deletes the entries, no-op for
missing ids. -/
def SegmentHolder.remove (h : SegmentHolder) (ids : List SegmentId) :
    SegmentHolder :=
  { h with segments := h.segments.filter (fun kv => !(ids.contains kv.1)) }

/-- Modelled from the spec: `snapshot()` is the consistent ordered view of
the holder's entries. -/
def SegmentHolder.snapshot (h : SegmentHolder) :
    List (SegmentId × SegmentEntry) :=
  h.segments

/-- Modelled from the spec: `swap(new_segment, replaces)` inserts the new
segment and removes all `replaces` entries as a single indivisible step. -/
def SegmentHolder.swap (h : SegmentHolder) (e : SegmentEntry)
    (replaces : List SegmentId) : SegmentId × SegmentHolder :=
  let res := h.add e
  (res.1, res.2.remove replaces)

/-- Lookup of a holder entry by segment id. -/
def SegmentHolder.get? (h : SegmentHolder) (sid : SegmentId) :
    Option SegmentEntry :=
  (h.segments.find? (fun kv => kv.1 = sid)).map (fun kv => kv.2)

/-- Holder well-formedness: every issued id is below the next fresh id. -/
def SegmentHolder.WF (h : SegmentHolder) : Prop :=
  ∀ kv ∈ h.segments, kv.1 < h.maxId

instance (h : SegmentHolder) : Decidable h.WF := by
  unfold SegmentHolder.WF; infer_instance

/-- All points held by any segment of the holder, in holder order. -/
def SegmentHolder.allPoints (h : SegmentHolder) : List PointStruct :=
  (h.segments.map (fun kv => kv.2.segment)).flatten

/-- Keep the first occurrence of each key, skipping keys already in `seen`.
Used by the read pipeline to deduplicate merged per-segment results by point
id. -/
def dedupByKey (key : α → PointIdType) : List PointIdType → List α → List α
  | _, [] => []
  | seen, p :: rest =>
    if key p ∈ seen then dedupByKey key seen rest
    else p :: dedupByKey key (key p :: seen) rest

/-- The dot-product similarity used by the test fixture's collection; the
metric's mathematics are out of the spec's scope. -/
def similarity (q v : VectorType) : Int :=
  (List.zipWith (fun a b => a * b) q v).sum

/-- `ScoredPoint` from `segment::types`. -/
structure ScoredPoint where
  id : PointIdType
  score : Int
  payload : Option TheMap
  vector : Option VectorType
deriving DecidableEq, Repr

/-- `SearchRequest` from `collection::operations::types` (the `params` field
carries index tuning hints, out of scope). -/
structure SearchRequest where
  vector : VectorType
  filter : Option Filter
  top : Nat
  withPayload : Option Bool
  withVector : Option Bool
deriving DecidableEq, Repr

/-- Build a `ScoredPoint` from a stored point, honouring the request's
payload/vector inclusion flags. -/
def scoredFrom (req : SearchRequest) (p : PointStruct) : ScoredPoint :=
  { id := p.id
    score := similarity req.vector p.vector
    payload := if req.withPayload = some true then p.payload else none
    vector := if req.withVector = some true then some p.vector else none }

/-- The merge order of the read pipeline: score descending, ties broken by
ascending point id. -/
def spRel (a b : ScoredPoint) : Prop :=
  b.score < a.score ∨ (a.score = b.score ∧ a.id ≤ b.id)

instance : DecidableRel spRel := fun a b => by
  unfold spRel; infer_instance

instance : IsTotal ScoredPoint spRel := by
  constructor
  intro a b
  unfold spRel
  rcases lt_trichotomy a.score b.score with h | h | h
  · exact Or.inr (Or.inl h)
  · rcases Nat.le_total a.id b.id with hid | hid
    · exact Or.inl (Or.inr ⟨h, hid⟩)
    · exact Or.inr (Or.inr ⟨h.symm, hid⟩)
  · exact Or.inl (Or.inl h)

instance : IsTrans ScoredPoint spRel := by
  constructor
  intro a b c hab hbc
  unfold spRel at *
  rcases hab with h1 | ⟨h1, h1'⟩ <;> rcases hbc with h2 | ⟨h2, h2'⟩
  · exact Or.inl (lt_trans h2 h1)
  · exact Or.inl (h2 ▸ h1)
  · exact Or.inl (h1 ▸ h2)
  · exact Or.inr ⟨h1.trans h2, h1'.trans h2'⟩

/-- Point-id order for the scroll pipeline's id-ordered merge. -/
def idRel (p q : PointStruct) : Prop := p.id ≤ q.id

instance : DecidableRel idRel := fun p q => by
  unfold idRel; infer_instance

instance : IsTotal PointStruct idRel :=
  ⟨fun p q => Nat.le_total p.id q.id⟩

instance : IsTrans PointStruct idRel :=
  ⟨fun _ _ _ h1 h2 => Nat.le_trans h1 h2⟩

/-- Modelled from the spec: a segment's local search scores every point
matching the filter and returns up to `top` candidates, best first. -/
def Segment.searchLocal (seg : Segment) (req : SearchRequest) :
    List ScoredPoint :=
  (List.insertionSort spRel
      ((seg.filter (fun p => checkOptFilter req.filter p)).map
        (scoredFrom req))).take req.top

/-- The concatenation of every snapshot segment's local search results. -/
def SegmentHolder.localResults (h : SegmentHolder) (req : SearchRequest) :
    List ScoredPoint :=
  (h.snapshot.map (fun kv => kv.2.segment.searchLocal req)).flatten

/-- Modelled from the spec: collection search queries every segment in the
snapshot, merges by score descending (ties by ascending id), deduplicates by
point id keeping the highest-score occurrence, and truncates to `top`. -/
def SegmentHolder.searchBy (h : SegmentHolder) (req : SearchRequest) :
    List ScoredPoint :=
  (dedupByKey ScoredPoint.id []
      (List.insertionSort spRel (h.localResults req))).take req.top

/-- `Record` from `collection::operations::types`: a retrieved point. -/
structure Record where
  id : PointIdType
  payload : Option TheMap
  vector : Option VectorType
deriving DecidableEq, Repr

/-- Build a `Record` from a stored point, honouring the inclusion flags. -/
def recordFrom (withPayload withVector : Bool) (p : PointStruct) : Record :=
  { id := p.id
    payload := if withPayload then p.payload else none
    vector := if withVector then some p.vector else none }

/-- Modelled from the spec: `retrieve` broadcasts the lookup, each segment
returns what it holds, and results are merged with at most one record per
id. -/
def SegmentHolder.retrieve (h : SegmentHolder) (ids : List PointIdType)
    (withPayload withVector : Bool) : List Record :=
  (dedupByKey PointStruct.id []
      (h.allPoints.filter (fun p => ids.contains p.id))).map
    (recordFrom withPayload withVector)

/-- `ScrollRequest` from `collection::operations::types`. -/
structure ScrollRequest where
  offset : Option PointIdType
  limit : Option Nat
  filter : Option Filter
  withPayload : Option Bool
  withVector : Option Bool
deriving DecidableEq, Repr

/-- `ScrollResult` from `collection::operations::types`. -/
structure ScrollResult where
  points : List Record
  nextPageOffset : Option PointIdType
deriving DecidableEq, Repr

/-- Does a point id pass the scroll offset bound? -/
def offsetLE : Option PointIdType → PointIdType → Bool
  | none, _ => true
  | some o, i => o ≤ i

/-- The holder's live points merged across segments in ascending id order,
one occurrence per id: the spec's merged "point-id-ordered stream". -/
def SegmentHolder.idSorted (h : SegmentHolder) : List PointStruct :=
  dedupByKey PointStruct.id [] (List.insertionSort idRel h.allPoints)

/-- Modelled from the spec: `scroll` merges the segments' id-ordered streams
starting at `offset`, takes `limit` results in ascending id order, and sets
`next_page_offset` to the id immediately after the last returned point if
more remain, else `None`. -/
def SegmentHolder.scrollBy (h : SegmentHolder) (req : ScrollRequest) :
    ScrollResult :=
  let limit := req.limit.getD 10
  let pts := h.idSorted.filter
    (fun p => offsetLE req.offset p.id && checkOptFilter req.filter p)
  { points := (pts.take limit).map
      (recordFrom (req.withPayload.getD false) (req.withVector.getD false))
    nextPageOffset := ((pts.drop limit).head?).map (fun p => p.id) }

/-- Insert a point at the front of the first appendable segment's store;
`none` when no appendable segment exists (the spec's `RoutingError`). -/
def insertToFirstAppendable (p : PointStruct) :
    List (SegmentId × SegmentEntry) → Option (List (SegmentId × SegmentEntry))
  | [] => none
  | kv :: rest =>
    if kv.2.appendable then
      some ((kv.1, { kv.2 with segment := p :: kv.2.segment }) :: rest)
    else (insertToFirstAppendable p rest).map (fun r => kv :: r)

/-- Modelled from the spec: upserting one point routes it to one appendable
segment; to maintain the holder's live-id uniqueness invariant, any previous
copy of the id is dropped from every segment in the same step. -/
def SegmentHolder.upsertPoint (h : SegmentHolder) (p : PointStruct) :
    Option SegmentHolder :=
  (insertToFirstAppendable p
    (h.segments.map (fun kv =>
      (kv.1, { kv.2 with
        segment := kv.2.segment.filter (fun q => !(q.id = p.id)) })))).map
    (fun segs => { h with segments := segs })

/-- Upsert a list of points in order; fails with the routing error when no
appendable segment exists. -/
def SegmentHolder.upsertPoints (h : SegmentHolder) :
    List PointStruct → Except CollectionError SegmentHolder
  | [] => .ok h
  | p :: ps =>
    match h.upsertPoint p with
    | none => .error .noAppendableSegment
    | some h1 => h1.upsertPoints ps

/-- Modelled from the spec: delete-by-id is broadcast to every segment; each
segment independently no-ops for ids it does not hold. -/
def SegmentHolder.deletePoints (h : SegmentHolder) (ids : List PointIdType) :
    SegmentHolder :=
  { h with segments := h.segments.map (fun kv =>
      (kv.1, { kv.2 with
        segment := kv.2.segment.filter (fun p => !(ids.contains p.id)) })) }

/-- Modelled from the spec: delete-by-filter is broadcast to all segments,
each evaluating the filter locally. -/
def SegmentHolder.deleteByFilter (h : SegmentHolder) (f : Filter) :
    SegmentHolder :=
  { h with segments := h.segments.map (fun kv =>
      (kv.1, { kv.2 with
        segment := kv.2.segment.filter (fun p => !(checkFilter f p)) })) }

/-- Overwrite the keys of `upd` in a payload map, keeping the other keys. -/
def mergePayload (old : Option TheMap) (upd : TheMap) : TheMap :=
  upd ++ (old.getD []).filter (fun kv => !((upd.map Prod.fst).contains kv.1))

/-- Modelled from the spec: `SetPayload` is broadcast; each segment updates
the payload fields of the affected ids it holds. -/
def SegmentHolder.setPayloadOp (h : SegmentHolder) (sp : SetPayload) :
    SegmentHolder :=
  { h with segments := h.segments.map (fun kv =>
      (kv.1, { kv.2 with segment := kv.2.segment.map (fun p =>
        if sp.points.contains p.id then
          { p with payload := some (mergePayload p.payload sp.payload) }
        else p) })) }

/-- Modelled from the spec: `ClearPayload` is broadcast; each segment drops
the payload of the affected ids it holds. -/
def SegmentHolder.clearPayloadOp (h : SegmentHolder)
    (pts : List PointIdType) : SegmentHolder :=
  { h with segments := h.segments.map (fun kv =>
      (kv.1, { kv.2 with segment := kv.2.segment.map (fun p =>
        if pts.contains p.id then { p with payload := none } else p) })) }

/-- Modelled from the spec: route one update operation across the holder's
segments (the update fan-out of the UpdateHandler). -/
def SegmentHolder.applyOperation (h : SegmentHolder)
    (op : CollectionUpdateOperations) : Except CollectionError SegmentHolder :=
  match op with
  | .pointOperation (.upsertPoints pio) => h.upsertPoints pio.points
  | .pointOperation (.deletePoints ids) => .ok (h.deletePoints ids)
  | .pointOperation (.deletePointsByFilter f) => .ok (h.deleteByFilter f)
  | .payloadOperation (.setPayload sp) => .ok (h.setPayloadOp sp)
  | .payloadOperation (.clearPayload pts) => .ok (h.clearPayloadOp pts)

/-- Apply a sequence of update operations in order, stopping at the first
hard failure. -/
def SegmentHolder.applyAll (h : SegmentHolder) :
    List CollectionUpdateOperations → Except CollectionError SegmentHolder
  | [] => .ok h
  | op :: ops =>
    match h.applyOperation op with
    | .ok h1 => h1.applyAll ops
    | .error e => .error e

/-- The collection: the segment holder plus the durably-logged operations
that have been dispatched but not yet applied (`wait = false` updates). -/
structure Collection where
  holder : SegmentHolder
  pending : List CollectionUpdateOperations
deriving DecidableEq, Repr

/-- Modelled from the spec: `update(op, wait)`.  With `wait = true` the
pending log and the new operation are applied and the result is
`Completed`; with `wait = false` the operation is only durably logged and
the result is `Acknowledged`. -/
def Collection.update (c : Collection) (op : CollectionUpdateOperations)
    (wait : Bool) : Except CollectionError (UpdateResult × Collection) :=
  if wait then
    match c.holder.applyAll (c.pending ++ [op]) with
    | .ok h => .ok (⟨.completed⟩, { holder := h, pending := [] })
    | .error e => .error e
  else
    .ok (⟨.acknowledged⟩, { c with pending := c.pending ++ [op] })

/-- `RecommendRequest` from `collection::operations::types`. -/
structure RecommendRequest where
  positive : List PointIdType
  negative : List PointIdType
  filter : Option Filter
  top : Nat
deriving DecidableEq, Repr

/-- Lookup of a point across every segment of the holder. -/
def SegmentHolder.lookupPoint (h : SegmentHolder) (i : PointIdType) :
    Option PointStruct :=
  h.allPoints.find? (fun p => p.id = i)

/-- Componentwise vector sum. -/
def vecAdd (a b : VectorType) : VectorType := List.zipWith (· + ·) a b

/-- Componentwise vector difference. -/
def vecSub (a b : VectorType) : VectorType := List.zipWith (· - ·) a b

/-- Sum of a list of vectors (empty sum is the empty vector). -/
def sumVecs : List VectorType → VectorType
  | [] => []
  | v :: vs => vs.foldl vecAdd v

/-- Exclude the given ids from a result set by strengthening the filter with
a `must_not HasId` clause. -/
def excludeIds (f : Option Filter) (ids : List PointIdType) : Filter :=
  match f with
  | none => ⟨none, none, some [.hasId ⟨ids⟩]⟩
  | some flt =>
    { flt with mustNot := some (flt.mustNot.getD [] ++ [.hasId ⟨ids⟩]) }

/-- Modelled from the spec: the query vector derived from the resolved
positive and negative exemplar vectors.  The spec fixes no formula; the
reference behaviour `pos + (pos - neg)` on the componentwise sums is used. -/
def recommendVector (pos neg : List VectorType) : VectorType :=
  vecSub (vecAdd (sumVecs pos) (sumVecs pos)) (sumVecs neg)

/-- The search request that a recommend request delegates to, given the
resolved exemplar vectors. -/
def recommendSearchRequest (req : RecommendRequest)
    (pos neg : List VectorType) : SearchRequest :=
  { vector := recommendVector pos neg
    filter := some (excludeIds req.filter (req.positive ++ req.negative))
    top := req.top
    withPayload := none
    withVector := none }

/-- Modelled from the spec: `recommend` resolves each exemplar id to its
stored vector (one lookup per id, across segments), derives a single query
vector and delegates to `search`; an exemplar id missing from every segment
is a reported error. -/
def SegmentHolder.recommendBy (h : SegmentHolder) (req : RecommendRequest) :
    Except CollectionError (List ScoredPoint) :=
  match (req.positive ++ req.negative).find?
      (fun i => (h.lookupPoint i).isNone) with
  | some missing => .error (.notFoundError missing)
  | none =>
    let pos := (req.positive.filterMap h.lookupPoint).map PointStruct.vector
    let neg := (req.negative.filterMap h.lookupPoint).map PointStruct.vector
    .ok (h.searchBy (recommendSearchRequest req pos neg))

/-- Is some segment currently holding a point with this id? -/
def SegmentHolder.hasLivePoint (h : SegmentHolder) (i : PointIdType) : Bool :=
  h.allPoints.any (fun p => p.id = i)

/-- All currently held copies of a point id across the holder's segments. -/
def SegmentHolder.pointsWithId (h : SegmentHolder) (i : PointIdType) :
    List PointStruct :=
  h.allPoints.filter (fun p => p.id = i)

/-- The merged id-ordered stream a scroll reads from a given offset (no
request filter). -/
def SegmentHolder.scrollStream (h : SegmentHolder)
    (off : Option PointIdType) : List PointStruct :=
  h.idSorted.filter (fun p => offsetLE off p.id)

/-- The scroll request issued by repeated pagination with page size `k`. -/
def pageRequest (off : Option PointIdType) (k : Nat) : ScrollRequest :=
  { offset := off, limit := some k, filter := none
    withPayload := some false, withVector := none }

/-- Repeatedly scroll with page size `k` from the given offset until
`next_page_offset` is `None`, concatenating the pages (`fuel` bounds the
number of pages). -/
def SegmentHolder.scrollAll (h : SegmentHolder) (k : Nat) :
    Nat → Option PointIdType → List Record
  | 0, _ => []
  | fuel + 1, off =>
    match (h.scrollBy (pageRequest off k)).nextPageOffset with
    | none => (h.scrollBy (pageRequest off k)).points
    | some o => (h.scrollBy (pageRequest off k)).points ++
        h.scrollAll k fuel (some o)

/-- The most recent upsert of id `i` in a sequence of upsert operations:
the last occurrence of `i` in the flattened point sequence. -/
def lastUpsert (i : PointIdType) (ops : List PointInsertOperations) :
    Option PointStruct :=
  (((ops.map PointInsertOperations.points).flatten).filter
    (fun p => p.id = i)).getLast?

/-- The collection fixture of the tests: a fresh collection with one empty
appendable segment and an empty pending log. -/
def simpleCollectionFixture : Collection :=
  { holder := { segments := [(0, ⟨[], true⟩)], maxId := 1 }, pending := [] }

/-- The insert operation of the spec's concrete scenario: 5 points with
4-dimensional vectors and ids 0..4 (`test_collection_updater`). -/
def scenarioInsertPoints : CollectionUpdateOperations :=
  .pointOperation (.upsertPoints (.batchPoints
    { ids := [0, 1, 2, 3, 4]
      vectors :=
        [[1, 0, 1, 1], [1, 0, 1, 0], [1, 1, 1, 1], [1, 1, 0, 1], [1, 0, 0, 0]]
      payloads := none }))

/-- The scenario's search request: vector `[1,1,1,1]`, `top = 3`. -/
def scenarioSearchRequest : SearchRequest :=
  { vector := [1, 1, 1, 1], filter := none, top := 3
    withPayload := none, withVector := none }

/-- The scenario's delete operation: delete ids 0 and 3 via a `HasId`
filter (`test_collection_delete_points_by_filter`). -/
def scenarioDeletePoints : CollectionUpdateOperations :=
  .pointOperation (.deletePointsByFilter
    { should := none, must := some [.hasId ⟨[0, 3]⟩], mustNot := none })

/-- The scenario's scroll request: from the beginning, `limit = 10`. -/
def scenarioScrollRequest : ScrollRequest :=
  { offset := none, limit := some 10, filter := none
    withPayload := some false, withVector := none }

/-- A tiny holder used by concrete witnesses: one appendable segment holding
the single point (1, [5]). -/
def witnessHolder : SegmentHolder :=
  { segments := [(0, ⟨[⟨1, [5], none⟩], true⟩)], maxId := 1 }

/-- A two-segment holder used by concrete witnesses. -/
def witnessHolderAB : SegmentHolder :=
  { segments := [(0, ⟨[⟨1, [5], none⟩], true⟩),
                 (1, ⟨[⟨2, [7], none⟩], false⟩)], maxId := 2 }

/-- A merged segment entry used by the swap witness. -/
def witnessMergedEntry : SegmentEntry :=
  ⟨[⟨1, [5], none⟩, ⟨2, [7], none⟩], false⟩

/-! JSON and MessagePack codecs for `CollectionUpdateOperations`, modelled
from the spec and the serde derives the tests exercise
(`test_deserialization`, `test_deserialization2`): JSON is a tree of
null/bool/number/string/array/object nodes with externally tagged enum
variants; MessagePack (`rmp_serde` compact mode) writes structs positionally
as arrays and enum variants as index-tagged pairs. -/

/-- A JSON document. -/
inductive JsonValue where
  | null
  | bool (b : Bool)
  | int (n : Int)
  | str (s : String)
  | arr (items : List JsonValue)
  | obj (fields : List (String × JsonValue))

/-- Encode an optional value, `null` when absent. -/
def encOptJson (enc : α → JsonValue) : Option α → JsonValue
  | none => .null
  | some a => enc a

/-- Decode an optional value. -/
def decOptJson (dec : JsonValue → Option α) : JsonValue → Option (Option α)
  | .null => some none
  | v => (dec v).map some

def encPayloadJson (m : TheMap) : JsonValue :=
  .obj (m.map (fun kv => (kv.1, .str kv.2)))

def decPayloadEntryJson : String × JsonValue → Option (String × String)
  | (k, .str v) => some (k, v)
  | _ => none

def decPayloadJson : JsonValue → Option TheMap
  | .obj fields => fields.mapM decPayloadEntryJson
  | _ => none

def decIntJson : JsonValue → Option Int
  | .int n => some n
  | _ => none

def decNatJson : JsonValue → Option Nat
  | .int (.ofNat n) => some n
  | _ => none

def encVectorJson (v : VectorType) : JsonValue :=
  .arr (v.map (fun x => .int x))

def decVectorJson : JsonValue → Option VectorType
  | .arr items => items.mapM decIntJson
  | _ => none

def encPointJson (p : PointStruct) : JsonValue :=
  .obj [("id", .int (Int.ofNat p.id)), ("vector", encVectorJson p.vector),
        ("payload", encOptJson encPayloadJson p.payload)]

def decPointJson : JsonValue → Option PointStruct
  | .obj [("id", idv), ("vector", vv), ("payload", pv)] => do
    let i ← decNatJson idv
    let v ← decVectorJson vv
    let pl ← decOptJson decPayloadJson pv
    some ⟨i, v, pl⟩
  | _ => none

def encBatchJson (b : Batch) : JsonValue :=
  .obj [("ids", .arr (b.ids.map (fun i => .int (Int.ofNat i)))),
        ("vectors", .arr (b.vectors.map encVectorJson)),
        ("payloads",
          encOptJson (fun pls => .arr (pls.map (encOptJson encPayloadJson)))
            b.payloads)]

def decBatchJson : JsonValue → Option Batch
  | .obj [("ids", iv), ("vectors", vv), ("payloads", pv)] => do
    let ids ← match iv with
      | .arr items => items.mapM decNatJson
      | _ => none
    let vecs ← match vv with
      | .arr items => items.mapM decVectorJson
      | _ => none
    let pls ← decOptJson
      (fun v => match v with
        | .arr items => items.mapM (decOptJson decPayloadJson)
        | _ => none) pv
    some ⟨ids, vecs, pls⟩
  | _ => none

def encConditionJson : Condition → JsonValue
  | .hasId c =>
    .obj [("has_id", .arr (c.hasId.map (fun i => .int (Int.ofNat i))))]

def decConditionJson : JsonValue → Option Condition
  | .obj [("has_id", .arr items)] =>
    (items.mapM decNatJson).map (fun ids => .hasId ⟨ids⟩)
  | _ => none

def encFilterJson (f : Filter) : JsonValue :=
  .obj [("should", encOptJson (fun cs => .arr (cs.map encConditionJson))
           f.should),
        ("must", encOptJson (fun cs => .arr (cs.map encConditionJson))
           f.must),
        ("must_not", encOptJson (fun cs => .arr (cs.map encConditionJson))
           f.mustNot)]

def decCondListJson : JsonValue → Option (List Condition)
  | .arr items => items.mapM decConditionJson
  | _ => none

def decFilterJson : JsonValue → Option Filter
  | .obj [("should", sv), ("must", mv), ("must_not", nv)] => do
    let s ← decOptJson decCondListJson sv
    let m ← decOptJson decCondListJson mv
    let n ← decOptJson decCondListJson nv
    some ⟨s, m, n⟩
  | _ => none

def encInsertJson : PointInsertOperations → JsonValue
  | .batchPoints b => .obj [("batch", encBatchJson b)]
  | .pointsList ps => .obj [("points", .arr (ps.map encPointJson))]

def decInsertJson : JsonValue → Option PointInsertOperations
  | .obj [("batch", bv)] => (decBatchJson bv).map .batchPoints
  | .obj [("points", .arr items)] =>
    (items.mapM decPointJson).map .pointsList
  | _ => none

def encOperationJson : CollectionUpdateOperations → JsonValue
  | .pointOperation (.upsertPoints pio) =>
    .obj [("upsert_points", encInsertJson pio)]
  | .pointOperation (.deletePoints ids) =>
    .obj [("delete_points",
      .obj [("ids", .arr (ids.map (fun i => .int (Int.ofNat i))))])]
  | .pointOperation (.deletePointsByFilter f) =>
    .obj [("delete_points_by_filter", encFilterJson f)]
  | .payloadOperation (.setPayload sp) =>
    .obj [("set_payload",
      .obj [("payload", encPayloadJson sp.payload),
            ("points", .arr (sp.points.map (fun i => .int (Int.ofNat i))))])]
  | .payloadOperation (.clearPayload pts) =>
    .obj [("clear_payload",
      .obj [("points", .arr (pts.map (fun i => .int (Int.ofNat i))))])]

def decOperationJson : JsonValue → Option CollectionUpdateOperations
  | .obj [("upsert_points", v)] =>
    (decInsertJson v).map (fun pio => .pointOperation (.upsertPoints pio))
  | .obj [("delete_points", .obj [("ids", .arr items)])] =>
    (items.mapM decNatJson).map
      (fun ids => .pointOperation (.deletePoints ids))
  | .obj [("delete_points_by_filter", v)] =>
    (decFilterJson v).map
      (fun f => .pointOperation (.deletePointsByFilter f))
  | .obj [("set_payload", .obj [("payload", plv), ("points", .arr items)])] => do
    let pl ← decPayloadJson plv
    let pts ← items.mapM decNatJson
    some (.payloadOperation (.setPayload ⟨pl, pts⟩))
  | .obj [("clear_payload", .obj [("points", .arr items)])] =>
    (items.mapM decNatJson).map
      (fun pts => .payloadOperation (.clearPayload pts))
  | _ => none

/-- A MessagePack document (compact positional mode). -/
inductive MpValue where
  | nil
  | bool (b : Bool)
  | int (n : Int)
  | str (s : String)
  | arr (items : List MpValue)

def encOptMp (enc : α → MpValue) : Option α → MpValue
  | none => .nil
  | some a => enc a

def decOptMp (dec : MpValue → Option α) : MpValue → Option (Option α)
  | .nil => some none
  | v => (dec v).map some

def encPayloadMp (m : TheMap) : MpValue :=
  .arr (m.map (fun kv => .arr [.str kv.1, .str kv.2]))

def decPayloadEntryMp : MpValue → Option (String × String)
  | .arr [.str k, .str v] => some (k, v)
  | _ => none

def decPayloadMp : MpValue → Option TheMap
  | .arr items => items.mapM decPayloadEntryMp
  | _ => none

def decIntMp : MpValue → Option Int
  | .int n => some n
  | _ => none

def decNatMp : MpValue → Option Nat
  | .int (.ofNat n) => some n
  | _ => none

def encVectorMp (v : VectorType) : MpValue :=
  .arr (v.map (fun x => .int x))

def decVectorMp : MpValue → Option VectorType
  | .arr items => items.mapM decIntMp
  | _ => none

def encPointMp (p : PointStruct) : MpValue :=
  .arr [.int (Int.ofNat p.id), encVectorMp p.vector,
        encOptMp encPayloadMp p.payload]

def decPointMp : MpValue → Option PointStruct
  | .arr [idv, vv, pv] => do
    let i ← decNatMp idv
    let v ← decVectorMp vv
    let pl ← decOptMp decPayloadMp pv
    some ⟨i, v, pl⟩
  | _ => none

def encBatchMp (b : Batch) : MpValue :=
  .arr [.arr (b.ids.map (fun i => .int (Int.ofNat i))),
        .arr (b.vectors.map encVectorMp),
        encOptMp (fun pls => .arr (pls.map (encOptMp encPayloadMp)))
          b.payloads]

def decBatchMp : MpValue → Option Batch
  | .arr [iv, vv, pv] => do
    let ids ← match iv with
      | .arr items => items.mapM decNatMp
      | _ => none
    let vecs ← match vv with
      | .arr items => items.mapM decVectorMp
      | _ => none
    let pls ← decOptMp
      (fun v => match v with
        | .arr items => items.mapM (decOptMp decPayloadMp)
        | _ => none) pv
    some ⟨ids, vecs, pls⟩
  | _ => none

def encConditionMp : Condition → MpValue
  | .hasId c =>
    .arr [.int 0, .arr (c.hasId.map (fun i => .int (Int.ofNat i)))]

def decConditionMp : MpValue → Option Condition
  | .arr [.int 0, .arr items] =>
    (items.mapM decNatMp).map (fun ids => .hasId ⟨ids⟩)
  | _ => none

def encFilterMp (f : Filter) : MpValue :=
  .arr [encOptMp (fun cs => .arr (cs.map encConditionMp)) f.should,
        encOptMp (fun cs => .arr (cs.map encConditionMp)) f.must,
        encOptMp (fun cs => .arr (cs.map encConditionMp)) f.mustNot]

def decCondListMp : MpValue → Option (List Condition)
  | .arr items => items.mapM decConditionMp
  | _ => none

def decFilterMp : MpValue → Option Filter
  | .arr [sv, mv, nv] => do
    let s ← decOptMp decCondListMp sv
    let m ← decOptMp decCondListMp mv
    let n ← decOptMp decCondListMp nv
    some ⟨s, m, n⟩
  | _ => none

def encInsertMp : PointInsertOperations → MpValue
  | .batchPoints b => .arr [.int 0, encBatchMp b]
  | .pointsList ps => .arr [.int 1, .arr (ps.map encPointMp)]

def decInsertMp : MpValue → Option PointInsertOperations
  | .arr [.int 0, bv] => (decBatchMp bv).map .batchPoints
  | .arr [.int 1, .arr items] => (items.mapM decPointMp).map .pointsList
  | _ => none

def encOperationMp : CollectionUpdateOperations → MpValue
  | .pointOperation (.upsertPoints pio) => .arr [.int 0, encInsertMp pio]
  | .pointOperation (.deletePoints ids) =>
    .arr [.int 1, .arr (ids.map (fun i => .int (Int.ofNat i)))]
  | .pointOperation (.deletePointsByFilter f) => .arr [.int 2, encFilterMp f]
  | .payloadOperation (.setPayload sp) =>
    .arr [.int 3, .arr [encPayloadMp sp.payload,
                        .arr (sp.points.map (fun i => .int (Int.ofNat i)))]]
  | .payloadOperation (.clearPayload pts) =>
    .arr [.int 4, .arr (pts.map (fun i => .int (Int.ofNat i)))]

def decOperationMp : MpValue → Option CollectionUpdateOperations
  | .arr [.int 0, v] =>
    (decInsertMp v).map (fun pio => .pointOperation (.upsertPoints pio))
  | .arr [.int 1, .arr items] =>
    (items.mapM decNatMp).map (fun ids => .pointOperation (.deletePoints ids))
  | .arr [.int 2, v] =>
    (decFilterMp v).map (fun f => .pointOperation (.deletePointsByFilter f))
  | .arr [.int 3, .arr [plv, .arr items]] => do
    let pl ← decPayloadMp plv
    let pts ← items.mapM decNatMp
    some (.payloadOperation (.setPayload ⟨pl, pts⟩))
  | .arr [.int 4, .arr items] =>
    (items.mapM decNatMp).map
      (fun pts => .payloadOperation (.clearPayload pts))
  | _ => none

/-! ### Helper lemmas about `dedupByKey` -/

theorem dedupByKey_sublist (key : α → PointIdType) (seen : List PointIdType)
    (l : List α) : List.Sublist (dedupByKey key seen l) l := by
  induction l generalizing seen with
  | nil => simp [dedupByKey]
  | cons p rest ih =>
    unfold dedupByKey
    split
    · exact (ih seen).trans (List.sublist_cons_self p rest)
    · exact (ih _).cons₂ p

theorem mem_dedupByKey (key : α → PointIdType) {seen : List PointIdType}
    {l : List α} {e : α} (he : e ∈ dedupByKey key seen l) :
    e ∈ l ∧ key e ∉ seen := by
  induction l generalizing seen with
  | nil => simp [dedupByKey] at he
  | cons p rest ih =>
    unfold dedupByKey at he
    split at he
    · obtain ⟨h1, h2⟩ := ih he
      exact ⟨List.mem_cons_of_mem p h1, h2⟩
    · rcases List.mem_cons.mp he with rfl | hmem
      · exact ⟨List.mem_cons_self _ _, by assumption⟩
      · obtain ⟨h1, h2⟩ := ih hmem
        exact ⟨List.mem_cons_of_mem p h1,
          fun hc => h2 (List.mem_cons_of_mem _ hc)⟩

theorem nodup_keys_dedupByKey (key : α → PointIdType)
    (seen : List PointIdType) (l : List α) :
    ((dedupByKey key seen l).map key).Nodup := by
  induction l generalizing seen with
  | nil => simp [dedupByKey]
  | cons p rest ih =>
    unfold dedupByKey
    split
    · exact ih seen
    · simp only [List.map_cons, List.nodup_cons]
      refine ⟨fun hc => ?_, ih _⟩
      rcases List.mem_map.mp hc with ⟨e, he, hke⟩
      exact (mem_dedupByKey key he).2 (by simp [hke])

theorem mem_keys_dedupByKey (key : α → PointIdType) {seen : List PointIdType}
    {l : List α} {k : PointIdType} (hk : k ∈ l.map key) (hns : k ∉ seen) :
    k ∈ (dedupByKey key seen l).map key := by
  induction l generalizing seen with
  | nil => simp at hk
  | cons p rest ih =>
    unfold dedupByKey
    rcases List.mem_map.mp hk with ⟨e, he, hke⟩
    split
    case isTrue hin =>
      rcases List.mem_cons.mp he with rfl | he'
      · exact absurd (hke ▸ hin) hns
      · exact ih (List.mem_map.mpr ⟨e, he', hke⟩) hns
    case isFalse hnin =>
      rcases List.mem_cons.mp he with rfl | he'
      · exact List.mem_map.mpr ⟨e, List.mem_cons_self _ _, hke⟩
      · by_cases hkp : k = key p
        · exact List.mem_map.mpr ⟨p, List.mem_cons_self _ _, hkp.symm⟩
        · have : k ∈ (dedupByKey key (key p :: seen) rest).map key :=
            ih (List.mem_map.mpr ⟨e, he', hke⟩)
              (by simp [hkp, hns])
          simpa using Or.inr this

theorem dedupByKey_max_kept {R : α → α → Prop} (key : α → PointIdType)
    {seen : List PointIdType} {l : List α} (hsort : l.Pairwise R) {e : α}
    (he : e ∈ dedupByKey key seen l) {q : α} (hq : q ∈ l)
    (hkey : key q = key e) : q = e ∨ R e q := by
  induction l generalizing seen with
  | nil => simp [dedupByKey] at he
  | cons p rest ih =>
    have hpr := List.pairwise_cons.mp hsort
    unfold dedupByKey at he
    split at he
    case isTrue hin =>
      have hens := (mem_dedupByKey key he).2
      rcases List.mem_cons.mp hq with rfl | hq'
      · exact absurd (hkey ▸ hin) hens
      · exact ih hpr.2 he hq'
    case isFalse hnin =>
      rcases List.mem_cons.mp he with rfl | he'
      · rcases List.mem_cons.mp hq with rfl | hq'
        · exact Or.inl rfl
        · exact Or.inr (hpr.1 q hq')
      · have hens := (mem_dedupByKey key he').2
        rcases List.mem_cons.mp hq with rfl | hq'
        · exact absurd (by simp [← hkey]) hens
        · exact ih hpr.2 he' hq'

theorem dedupByKey_eq_nil (key : α → PointIdType) {seen : List PointIdType}
    {l : List α} (h : ∀ x ∈ l, key x ∈ seen) : dedupByKey key seen l = [] := by
  induction l with
  | nil => simp [dedupByKey]
  | cons p rest ih =>
    unfold dedupByKey
    rw [if_pos (h p (List.mem_cons_self _ _))]
    exact ih (fun x hx => h x (List.mem_cons_of_mem p hx))

theorem dedupByKey_same_key (key : α → PointIdType) {l : List α} {p : α}
    (h : ∀ x ∈ l, key x = key p) : dedupByKey key [] (p :: l) = [p] := by
  unfold dedupByKey
  rw [if_neg (List.not_mem_nil _)]
  rw [dedupByKey_eq_nil key (fun x hx => by simp [h x hx])]

/-! ### Search pipeline lemmas -/

theorem searchBy_pairwise (h : SegmentHolder) (req : SearchRequest) :
    (h.searchBy req).Pairwise spRel := by
  have hs : (List.insertionSort spRel (h.localResults req)).Pairwise spRel :=
    List.sorted_insertionSort spRel (h.localResults req)
  have hd := List.Pairwise.sublist (dedupByKey_sublist ScoredPoint.id []
    (List.insertionSort spRel (h.localResults req))) hs
  exact List.Pairwise.sublist (List.take_sublist _ _) hd

theorem searchBy_nodup_ids (h : SegmentHolder) (req : SearchRequest) :
    ((h.searchBy req).map ScoredPoint.id).Nodup := by
  have hn := nodup_keys_dedupByKey ScoredPoint.id []
    (List.insertionSort spRel (h.localResults req))
  exact List.Nodup.sublist ((List.take_sublist _ _).map ScoredPoint.id) hn

theorem searchBy_mem (h : SegmentHolder) (req : SearchRequest) {e : ScoredPoint}
    (he : e ∈ h.searchBy req) : e ∈ h.localResults req := by
  have h1 := (List.take_sublist _ _).mem he
  have h2 := (mem_dedupByKey ScoredPoint.id h1).1
  exact (List.mem_insertionSort spRel).mp h2

theorem searchBy_max_kept (h : SegmentHolder) (req : SearchRequest)
    {e : ScoredPoint} (he : e ∈ h.searchBy req) {q : ScoredPoint}
    (hq : q ∈ h.localResults req) (hid : q.id = e.id) : q.score ≤ e.score := by
  have hsort : (List.insertionSort spRel (h.localResults req)).Pairwise spRel :=
    List.sorted_insertionSort spRel (h.localResults req)
  have he' := (List.take_sublist _ _).mem he
  have hq' := (List.mem_insertionSort spRel).mpr hq
  rcases dedupByKey_max_kept ScoredPoint.id hsort he' hq' hid with rfl | hrel
  · exact le_refl _
  · rcases hrel with hlt | ⟨heq, _⟩
    · exact le_of_lt hlt
    · exact le_of_eq heq.symm

theorem searchBy_length (h : SegmentHolder) (req : SearchRequest) :
    (h.searchBy req).length ≤ req.top :=
  (List.length_take _ _).trans_le (min_le_left _ _)

theorem searchBy_not_full (h : SegmentHolder) (req : SearchRequest)
    (hlen : (h.searchBy req).length < req.top) {q : ScoredPoint}
    (hq : q ∈ h.localResults req) : ∃ e ∈ h.searchBy req, e.id = q.id := by
  set sorted := List.insertionSort spRel (h.localResults req) with hsorted
  set deduped := dedupByKey ScoredPoint.id [] sorted with hdeduped
  have hfull : deduped.take req.top = deduped := by
    apply List.take_of_length_le
    by_contra hc
    push_neg at hc
    have : (deduped.take req.top).length = req.top := by
      rw [List.length_take]
      omega
    have hsearch : h.searchBy req = deduped.take req.top := rfl
    rw [hsearch, this] at hlen
    omega
  have hqid : q.id ∈ sorted.map ScoredPoint.id :=
    List.mem_map.mpr ⟨q, (List.mem_insertionSort spRel).mpr hq, rfl⟩
  have hmem : q.id ∈ deduped.map ScoredPoint.id :=
    mem_keys_dedupByKey ScoredPoint.id hqid (List.not_mem_nil _)
  rcases List.mem_map.mp hmem with ⟨e, he, hke⟩
  refine ⟨e, ?_, hke⟩
  show e ∈ deduped.take req.top
  rw [hfull]
  exact he

/-- The strict merge order the claims state: score strictly descending, or
equal scores with strictly ascending point id. -/
theorem searchBy_pairwise_strict (h : SegmentHolder) (req : SearchRequest) :
    (h.searchBy req).Pairwise
      (fun a b => b.score < a.score ∨ (a.score = b.score ∧ a.id < b.id)) := by
  have h1 := searchBy_pairwise h req
  have h2 : (h.searchBy req).Pairwise (fun a b => a.id ≠ b.id) :=
    List.pairwise_map.mp (searchBy_nodup_ids h req)
  refine (h1.and h2).imp ?_
  rintro a b ⟨hrel, hne⟩
  rcases hrel with hlt | ⟨heq, hle⟩
  · exact Or.inl hlt
  · exact Or.inr ⟨heq, lt_of_le_of_ne hle hne⟩

/-- C2: for every search request over the current snapshot, search returns
an ordered sequence of at most `top` scored points, ordered by score
descending with ties broken by ascending point id, containing at most one
entry per point id; each returned entry is a local result whose score is
maximal among the local results sharing its id, and a local candidate is
only dropped (as an id) when the result is full at `top`. -/
theorem search_spec (h : SegmentHolder) (req : SearchRequest) :
    (h.searchBy req).length ≤ req.top ∧
    (h.searchBy req).Pairwise
      (fun a b => b.score < a.score ∨ (a.score = b.score ∧ a.id < b.id)) ∧
    ((h.searchBy req).map ScoredPoint.id).Nodup ∧
    (∀ e ∈ h.searchBy req, e ∈ h.localResults req ∧
      ∀ q ∈ h.localResults req, q.id = e.id → q.score ≤ e.score) ∧
    ((h.searchBy req).length < req.top →
      ∀ q ∈ h.localResults req, ∃ e ∈ h.searchBy req, e.id = q.id) :=
  ⟨searchBy_length h req, searchBy_pairwise_strict h req,
    searchBy_nodup_ids h req,
    fun _ he => ⟨searchBy_mem h req he,
      fun _ hq hid => searchBy_max_kept h req he hq hid⟩,
    fun hlen _ hq => searchBy_not_full h req hlen hq⟩

/-- C9: for a fixed collection state and a fixed search request, any two
calls of `search` return the same ordered list; whenever two results have
equal scores, the one with the smaller point id comes first. -/
theorem search_deterministic (h : SegmentHolder) (req : SearchRequest)
    (r1 r2 : List ScoredPoint) (h1 : r1 = h.searchBy req)
    (h2 : r2 = h.searchBy req) :
    r1 = r2 ∧ r1.Pairwise (fun a b => a.score = b.score → a.id < b.id) := by
  subst h1 h2
  refine ⟨rfl, (searchBy_pairwise_strict h req).imp ?_⟩
  rintro a b (hlt | ⟨heq, hid⟩) hscore
  · exact absurd hscore (by omega)
  · exact hid

/-- Witness for `search_deterministic` at a concrete one-segment holder. -/
theorem search_deterministic_witness :
    ({ segments :=
         [(0, ⟨[⟨0, [1, 0], none⟩, ⟨1, [1, 0], none⟩], true⟩)],
       maxId := 1 } : SegmentHolder).searchBy
        ⟨[1, 1], none, 2, none, none⟩ =
      ({ segments :=
           [(0, ⟨[⟨0, [1, 0], none⟩, ⟨1, [1, 0], none⟩], true⟩)],
         maxId := 1 } : SegmentHolder).searchBy
        ⟨[1, 1], none, 2, none, none⟩ ∧
    (({ segments :=
          [(0, ⟨[⟨0, [1, 0], none⟩, ⟨1, [1, 0], none⟩], true⟩)],
        maxId := 1 } : SegmentHolder).searchBy
        ⟨[1, 1], none, 2, none, none⟩).Pairwise
      (fun a b => a.score = b.score → a.id < b.id) :=
  search_deterministic _ _ _ _ rfl rfl

/-- C1: in the spec's concrete scenario, inserting 5 points with
4-dimensional vectors and ids 0..4 succeeds; a search for `[1,1,1,1]` with
`top = 3` returns exactly 3 scored points with the exact match (id 2)
first; after deleting ids 0 and 3 via a `HasId` filter, a scroll with
`limit = 10` returns exactly the points with ids 1, 2, 4 in ascending id
order. -/
theorem concrete_scenario_spec :
    ∃ c1 : Collection,
      simpleCollectionFixture.update scenarioInsertPoints true =
        .ok (⟨.completed⟩, c1) ∧
      (c1.holder.searchBy scenarioSearchRequest).length = 3 ∧
      (c1.holder.searchBy scenarioSearchRequest).map
          (fun sp => (sp.id, sp.score)) = [(2, 4), (0, 3), (3, 3)] ∧
      ∃ c2 : Collection,
        c1.update scenarioDeletePoints true = .ok (⟨.completed⟩, c2) ∧
        ((c2.holder.scrollBy scenarioScrollRequest).points).map Record.id =
          [1, 2, 4] :=
  ⟨{ holder := { segments := [(0,
       ⟨[⟨4, [1, 0, 0, 0], none⟩, ⟨3, [1, 1, 0, 1], none⟩,
         ⟨2, [1, 1, 1, 1], none⟩, ⟨1, [1, 0, 1, 0], none⟩,
         ⟨0, [1, 0, 1, 1], none⟩], true⟩)], maxId := 1 }, pending := [] },
    by decide, by decide, by decide,
    ⟨{ holder := { segments := [(0,
         ⟨[⟨4, [1, 0, 0, 0], none⟩, ⟨2, [1, 1, 1, 1], none⟩,
           ⟨1, [1, 0, 1, 0], none⟩], true⟩)], maxId := 1 }, pending := [] },
      by decide, by decide⟩⟩

/-! ### Generic list helpers -/

theorem list_map_eq_self {f : α → α} {l : List α} (h : ∀ x ∈ l, f x = x) :
    l.map f = l := by
  induction l with
  | nil => rfl
  | cons x xs ih =>
    rw [List.map_cons, h x (List.mem_cons_self _ _),
      ih (fun y hy => h y (List.mem_cons_of_mem _ hy))]

theorem list_filter_idem (p : α → Bool) (l : List α) :
    (l.filter p).filter p = l.filter p :=
  List.filter_eq_self.mpr (fun _x hx => (List.mem_filter.mp hx).2)

theorem list_find?_filter_of_imp (p q : α → Bool) (l : List α)
    (himp : ∀ x, p x = true → q x = true) :
    (l.filter q).find? p = l.find? p := by
  induction l with
  | nil => rfl
  | cons x xs ih =>
    by_cases hp : p x = true
    · rw [List.filter_cons, if_pos (himp x hp), List.find?_cons_of_pos _ hp,
        List.find?_cons_of_pos _ hp]
    · by_cases hq : q x = true
      · rw [List.filter_cons, if_pos hq, List.find?_cons_of_neg _
          (by simpa using hp), List.find?_cons_of_neg _ (by simpa using hp),
          ih]
      · rw [List.filter_cons, if_neg hq, List.find?_cons_of_neg _
          (by simpa using hp), ih]

/-- C6: a successful `update` returns status `Acknowledged` exactly when
`wait = false`, in which case the operation was only appended to the durable
pending log and the segments are untouched; with `wait = true` it returns
`Completed` and the pending log plus the operation have been applied to the
holder (so the effects are visible to subsequent reads, which read the
holder), leaving the pending log empty. -/
theorem update_status_spec (c : Collection) (op : CollectionUpdateOperations)
    (wait : Bool) (res : UpdateResult) (c' : Collection)
    (hok : c.update op wait = .ok (res, c')) :
    (res.status = .acknowledged ↔ wait = false) ∧
    (res.status = .completed ↔ wait = true) ∧
    (wait = true → c.holder.applyAll (c.pending ++ [op]) = .ok c'.holder ∧
      c'.pending = []) ∧
    (wait = false → c'.holder = c.holder ∧
      c'.pending = c.pending ++ [op]) := by
  unfold Collection.update at hok
  cases wait with
  | false =>
    simp only [Bool.false_eq_true, if_false, Except.ok.injEq,
      Prod.mk.injEq] at hok
    obtain ⟨hres, hc⟩ := hok
    subst hres
    subst hc
    simp
  | true =>
    simp only [if_true] at hok
    cases happ : c.holder.applyAll (c.pending ++ [op]) with
    | ok h1 =>
      rw [happ] at hok
      simp only [Except.ok.injEq, Prod.mk.injEq] at hok
      obtain ⟨hres, hc⟩ := hok
      subst hres
      subst hc
      simp [happ]
    | error e =>
      rw [happ] at hok
      simp at hok

/-- Witness for `update_status_spec`: a waiting delete on the fixture. -/
theorem update_status_spec_witness :
    ((⟨.completed⟩ : UpdateResult).status = .acknowledged ↔ true = false) ∧
    ((⟨.completed⟩ : UpdateResult).status = .completed ↔ true = true) ∧
    (true = true →
      simpleCollectionFixture.holder.applyAll
          (simpleCollectionFixture.pending ++
            [.pointOperation (.deletePoints [7])]) =
        .ok simpleCollectionFixture.holder ∧
      ([] : List CollectionUpdateOperations) = []) ∧
    (true = false →
      simpleCollectionFixture.holder = simpleCollectionFixture.holder ∧
      ([] : List CollectionUpdateOperations) =
        simpleCollectionFixture.pending ++
          [.pointOperation (.deletePoints [7])]) :=
  update_status_spec simpleCollectionFixture
    (.pointOperation (.deletePoints [7])) true ⟨.completed⟩
    ⟨simpleCollectionFixture.holder, []⟩ (by decide)

/-- C8: deleting a point id that is not live succeeds and leaves the holder
literally unchanged; delete-by-id always succeeds and is idempotent. -/
theorem delete_idempotent (h : SegmentHolder) (i : PointIdType)
    (hnl : h.hasLivePoint i = false) :
    h.applyOperation (.pointOperation (.deletePoints [i])) =
      .ok (h.deletePoints [i]) ∧
    h.deletePoints [i] = h ∧
    (h.deletePoints [i]).deletePoints [i] = h.deletePoints [i] := by
  refine ⟨rfl, ?_, ?_⟩
  · have hfalse : h.allPoints.any (fun p => p.id = i) = false := by
      simpa [SegmentHolder.hasLivePoint] using hnl
    have hall : ∀ p ∈ h.allPoints, ¬(p.id = i) := by
      intro p hp
      have := List.any_eq_false.mp hfalse p hp
      simpa using this
    unfold SegmentHolder.deletePoints
    cases h with
    | mk segs maxId =>
      simp only [SegmentHolder.mk.injEq, and_true]
      apply list_map_eq_self
      intro kv hkv
      have hseg : kv.2.segment.filter (fun p => !([i].contains p.id)) =
          kv.2.segment := by
        apply List.filter_eq_self.mpr
        intro p hp
        have hpmem : p ∈ SegmentHolder.allPoints ⟨segs, maxId⟩ := by
          unfold SegmentHolder.allPoints
          exact List.mem_flatten.mpr
            ⟨kv.2.segment, List.mem_map.mpr ⟨kv, hkv, rfl⟩, hp⟩
        have := hall p hpmem
        simpa using this
      rw [hseg]
  · unfold SegmentHolder.deletePoints
    simp only [List.map_map, SegmentHolder.mk.injEq, and_true]
    apply List.map_congr_left
    intro kv _
    simp only [Function.comp_apply]
    rw [list_filter_idem]

/-- Witness for `delete_idempotent` at a one-point holder and a dead id. -/
theorem delete_idempotent_witness :
    witnessHolder.applyOperation (.pointOperation (.deletePoints [3])) =
      Except.ok (witnessHolder.deletePoints [3]) ∧
    witnessHolder.deletePoints [3] = witnessHolder ∧
    (witnessHolder.deletePoints [3]).deletePoints [3] =
      witnessHolder.deletePoints [3] :=
  delete_idempotent witnessHolder 3 (by decide)

/-- C4: `swap` performs one indivisible state transition: in the resulting
holder the new segment is present under the fresh id, every replaced id is
absent, and every other id maps to exactly what it mapped to before; in the
prior holder the fresh id is absent (and the replaced ids present, by
hypothesis).  A snapshot therefore observes either the fully-before or the
fully-after state. -/
theorem swap_atomic (h : SegmentHolder) (e : SegmentEntry)
    (replaces : List SegmentId) (hwf : h.WF)
    (hrep : ∀ r ∈ replaces, h.get? r ≠ none) :
    (h.swap e replaces).2.get? (h.swap e replaces).1 = some e ∧
    h.get? (h.swap e replaces).1 = none ∧
    (∀ r ∈ replaces, (h.swap e replaces).2.get? r = none) ∧
    (∀ sid, sid ≠ (h.swap e replaces).1 → sid ∉ replaces →
      (h.swap e replaces).2.get? sid = h.get? sid) := by
  have hkey : ∀ r ∈ replaces, ∃ kv ∈ h.segments, kv.1 = r := by
    intro r hr
    have := hrep r hr
    unfold SegmentHolder.get? at this
    cases hfind : h.segments.find? (fun kv => kv.1 = r) with
    | none => rw [hfind] at this; simp at this
    | some kv =>
      have hmem := List.mem_of_find?_eq_some hfind
      have hpred := List.find?_some hfind
      exact ⟨kv, hmem, by simpa using hpred⟩
  have hmaxnot : h.maxId ∉ replaces := by
    intro hc
    rcases hkey h.maxId hc with ⟨kv, hkv, hk1⟩
    exact absurd hk1 (Nat.ne_of_lt (hwf kv hkv))
  have hswap1 : (h.swap e replaces).1 = h.maxId := rfl
  have hsegs : (h.swap e replaces).2.segments =
      (h.maxId, e) :: h.segments.filter
        (fun kv => !(replaces.contains kv.1)) := by
    show (((h.maxId, e) :: h.segments).filter
        (fun kv => !(replaces.contains kv.1))) = _
    rw [List.filter_cons]
    rw [if_pos (by simpa using hmaxnot)]
  refine ⟨?_, ?_, ?_, ?_⟩
  · rw [hswap1]
    unfold SegmentHolder.get?
    rw [hsegs, List.find?_cons_of_pos _ (by simp)]
    rfl
  · rw [hswap1]
    unfold SegmentHolder.get?
    rw [List.find?_eq_none.mpr ?_]
    · rfl
    · intro kv hkv
      simp only [decide_eq_true_eq]
      exact Nat.ne_of_lt (hwf kv hkv)
  · intro r hr
    have hrneq : r ≠ h.maxId := by
      intro hc
      exact hmaxnot (hc ▸ hr)
    unfold SegmentHolder.get?
    rw [hsegs, List.find?_cons_of_neg _ (by simpa using hrneq.symm),
      List.find?_eq_none.mpr ?_]
    · rfl
    · intro kv hkv
      have hmem := List.mem_filter.mp hkv
      have : kv.1 ∉ replaces := by simpa using hmem.2
      simp only [decide_eq_true_eq]
      intro hc
      exact this (hc ▸ hr)
  · intro sid hne hnotin
    rw [hswap1] at hne
    unfold SegmentHolder.get?
    rw [hsegs, List.find?_cons_of_neg _ (by simpa using fun hc => hne hc.symm)]
    rw [list_find?_filter_of_imp]
    intro kv hkv
    simp only [decide_eq_true_eq] at hkv
    simpa [hkv] using hnotin

/-- Witness for `swap_atomic`: merging the two segments of a two-segment
holder into one new segment. -/
theorem swap_atomic_witness :
    (witnessHolderAB.swap witnessMergedEntry [0, 1]).2.get?
        (witnessHolderAB.swap witnessMergedEntry [0, 1]).1 =
      some witnessMergedEntry ∧
    witnessHolderAB.get?
        (witnessHolderAB.swap witnessMergedEntry [0, 1]).1 = none ∧
    (∀ r ∈ [0, 1],
      (witnessHolderAB.swap witnessMergedEntry [0, 1]).2.get? r = none) ∧
    (∀ sid, sid ≠ (witnessHolderAB.swap witnessMergedEntry [0, 1]).1 →
      sid ∉ [0, 1] →
      (witnessHolderAB.swap witnessMergedEntry [0, 1]).2.get? sid =
        witnessHolderAB.get? sid) :=
  swap_atomic witnessHolderAB witnessMergedEntry [0, 1] (by decide)
    (by decide)

/-- C7: `recommend` resolves every positive and negative exemplar id to its
stored point (one lookup per id, across segments) and delegates to `search`
with a derived query (same result shape, same `top`); it returns a reported
error exactly when some exemplar id is missing from every segment, and the
error names such a missing id. -/
theorem recommend_spec (h : SegmentHolder) (req : RecommendRequest) :
    (∀ e, h.recommendBy req = .error e →
      ∃ i ∈ req.positive ++ req.negative,
        h.lookupPoint i = none ∧ e = .notFoundError i) ∧
    ((∃ i ∈ req.positive ++ req.negative, h.lookupPoint i = none) →
      ∃ e, h.recommendBy req = .error e) ∧
    (∀ res, h.recommendBy req = .ok res →
      (∀ i ∈ req.positive ++ req.negative, h.lookupPoint i ≠ none) ∧
      ∃ sreq, sreq.top = req.top ∧ res = h.searchBy sreq) := by
  cases hfind : (req.positive ++ req.negative).find?
      (fun i => (h.lookupPoint i).isNone) with
  | some missing =>
    have hrec : h.recommendBy req = .error (.notFoundError missing) := by
      unfold SegmentHolder.recommendBy
      rw [hfind]
    refine ⟨?_, ?_, ?_⟩
    · intro e he
      rw [hrec] at he
      simp only [Except.error.injEq] at he
      refine ⟨missing, List.mem_of_find?_eq_some hfind, ?_, he.symm⟩
      have := List.find?_some hfind
      simpa [Option.isNone_iff_eq_none] using this
    · intro _
      exact ⟨_, hrec⟩
    · intro res hres
      rw [hrec] at hres
      simp at hres
  | none =>
    have hrec : h.recommendBy req = .ok (h.searchBy (recommendSearchRequest
        req ((req.positive.filterMap h.lookupPoint).map PointStruct.vector)
        ((req.negative.filterMap h.lookupPoint).map PointStruct.vector))) := by
      unfold SegmentHolder.recommendBy
      rw [hfind]
    have hnomiss : ∀ i ∈ req.positive ++ req.negative,
        h.lookupPoint i ≠ none := by
      intro i hi hnone
      have := List.find?_eq_none.mp hfind i hi
      simp [hnone] at this
    refine ⟨?_, ?_, ?_⟩
    · intro e he
      rw [hrec] at he
      simp at he
    · rintro ⟨i, hi, hnone⟩
      exact absurd hnone (hnomiss i hi)
    · intro res hres
      rw [hrec] at hres
      simp only [Except.ok.injEq] at hres
      exact ⟨hnomiss, ⟨_, rfl, hres.symm⟩⟩

/-! ### Upsert tracking lemmas -/

theorem insertToFirstAppendable_perm (p : PointStruct)
    (segs segs' : List (SegmentId × SegmentEntry))
    (hins : insertToFirstAppendable p segs = some segs') :
    ((segs'.map (fun kv => kv.2.segment)).flatten).Perm
      (p :: ((segs.map (fun kv => kv.2.segment)).flatten)) := by
  induction segs generalizing segs' with
  | nil => simp [insertToFirstAppendable] at hins
  | cons kv rest ih =>
    unfold insertToFirstAppendable at hins
    split at hins
    · simp only [Option.some.injEq] at hins
      subst hins
      simp
    · cases hrec : insertToFirstAppendable p rest with
      | none => rw [hrec] at hins; simp at hins
      | some r' =>
        rw [hrec] at hins
        simp only [Option.map_some', Option.some.injEq] at hins
        subst hins
        simp only [List.map_cons, List.flatten_cons]
        exact ((ih r' hrec).append_left kv.2.segment).trans List.perm_middle

theorem upsertPoint_allPoints_perm (h h1 : SegmentHolder) (p : PointStruct)
    (hup : h.upsertPoint p = some h1) :
    h1.allPoints.Perm
      (p :: (h.allPoints.filter (fun q => !(q.id = p.id)))) := by
  unfold SegmentHolder.upsertPoint at hup
  cases hins : insertToFirstAppendable p
      (h.segments.map (fun kv =>
        (kv.1, { kv.2 with
          segment := kv.2.segment.filter (fun q => !(q.id = p.id)) }))) with
  | none => rw [hins] at hup; simp at hup
  | some segs' =>
    rw [hins] at hup
    simp only [Option.map_some', Option.some.injEq] at hup
    have hperm := insertToFirstAppendable_perm p _ _ hins
    have hflat : (((h.segments.map (fun kv =>
        (kv.1, { kv.2 with
          segment := kv.2.segment.filter (fun q => !(q.id = p.id)) }))).map
            (fun kv => kv.2.segment)).flatten) =
        h.allPoints.filter (fun q => !(q.id = p.id)) := by
      unfold SegmentHolder.allPoints
      rw [List.filter_flatten, List.map_map, List.map_map]
      congr 1
    rw [hflat] at hperm
    have : h1.allPoints = (segs'.map (fun kv => kv.2.segment)).flatten := by
      rw [← hup]
      rfl
    rw [this]
    exact hperm

theorem upsertPoint_pointsWithId (h h1 : SegmentHolder) (p : PointStruct)
    (i : PointIdType) (hup : h.upsertPoint p = some h1) :
    (p.id = i → h1.pointsWithId i = [p]) ∧
    (¬(p.id = i) → (h1.pointsWithId i).Perm (h.pointsWithId i)) := by
  have hperm := (upsertPoint_allPoints_perm h h1 p hup).filter
    (fun q => decide (q.id = i))
  constructor
  · intro hpi
    apply List.perm_singleton.mp
    unfold SegmentHolder.pointsWithId
    refine hperm.trans ?_
    rw [List.filter_cons, if_pos (by simpa using hpi)]
    have hnil : (h.allPoints.filter (fun q => !(q.id = p.id))).filter
        (fun q => decide (q.id = i)) = [] := by
      rw [List.filter_filter]
      apply List.filter_eq_nil_iff.mpr
      intro q _
      subst hpi
      simp
    rw [hnil]
  · intro hpi
    unfold SegmentHolder.pointsWithId
    refine hperm.trans ?_
    rw [List.filter_cons, if_neg (by simpa using hpi)]
    rw [List.filter_filter]
    have heq : h.allPoints.filter
        (fun a => decide (a.id = i) && !(a.id = p.id)) =
        h.allPoints.filter (fun a => decide (a.id = i)) := by
      apply List.filter_congr
      intro q _
      by_cases hq : q.id = i
      · have h2 : ¬(q.id = p.id) := fun hc => hpi (by rw [← hc, hq])
        have h3 : ¬(i = p.id) := fun hc => hpi hc.symm
        simp [hq, h2, h3]
      · simp [hq]
    rw [heq]

theorem getLast?_cons_or (l : List α) (p : α) :
    (p :: l).getLast? = l.getLast?.or (some p) := by
  have := @List.getLast?_append _ [p] l
  simpa using this

theorem upsertPoints_pointsWithId (ps : List PointStruct)
    (h h1 : SegmentHolder) (i : PointIdType)
    (hup : h.upsertPoints ps = .ok h1) :
    (∀ p, (ps.filter (fun q => q.id = i)).getLast? = some p →
      h1.pointsWithId i = [p]) ∧
    ((ps.filter (fun q => q.id = i)).getLast? = none →
      (h1.pointsWithId i).Perm (h.pointsWithId i)) := by
  induction ps generalizing h with
  | nil =>
    unfold SegmentHolder.upsertPoints at hup
    simp only [Except.ok.injEq] at hup
    subst hup
    exact ⟨fun p hp => by simp at hp, fun _ => List.Perm.refl _⟩
  | cons p ps' ih =>
    unfold SegmentHolder.upsertPoints at hup
    cases hpt : h.upsertPoint p with
    | none => rw [hpt] at hup; simp at hup
    | some hm =>
      rw [hpt] at hup
      have hocc := upsertPoint_pointsWithId h hm p i hpt
      have ihm := ih hm hup
      rw [List.filter_cons]
      by_cases hpi : p.id = i
      · rw [if_pos (by simpa using hpi)]
        rw [getLast?_cons_or]
        cases hrest : (ps'.filter (fun q => q.id = i)).getLast? with
        | none =>
          constructor
          · intro q hq
            simp only [hrest, Option.or] at hq
            cases hq
            exact List.perm_singleton.mp
              ((ihm.2 hrest).trans (List.Perm.of_eq (hocc.1 hpi)))
          · intro hq
            simp [hrest, Option.or] at hq
        | some q =>
          constructor
          · intro q' hq'
            simp only [hrest, Option.or] at hq'
            cases hq'
            exact ihm.1 q hrest
          · intro hq
            simp [hrest, Option.or] at hq
      · rw [if_neg (by simpa using hpi)]
        constructor
        · intro q hq
          exact ihm.1 q hq
        · intro hq
          exact (ihm.2 hq).trans (hocc.2 hpi)

theorem applyAll_upserts_pointsWithId (ops : List PointInsertOperations)
    (h h1 : SegmentHolder) (i : PointIdType)
    (happly : h.applyAll
      (ops.map (fun o => .pointOperation (.upsertPoints o))) = .ok h1) :
    (∀ p, lastUpsert i ops = some p → h1.pointsWithId i = [p]) ∧
    (lastUpsert i ops = none → (h1.pointsWithId i).Perm (h.pointsWithId i)) := by
  induction ops generalizing h with
  | nil =>
    unfold SegmentHolder.applyAll at happly
    simp only [List.map_nil, Except.ok.injEq] at happly
    subst happly
    exact ⟨fun p hp => by simp [lastUpsert] at hp, fun _ => List.Perm.refl _⟩
  | cons o rest ih =>
    rw [List.map_cons] at happly
    unfold SegmentHolder.applyAll at happly
    cases hop : h.applyOperation
        (.pointOperation (.upsertPoints o)) with
    | error e => rw [hop] at happly; simp at happly
    | ok hm =>
      rw [hop] at happly
      have hopeq : h.upsertPoints o.points = .ok hm := hop
      have hups := upsertPoints_pointsWithId o.points h hm i hopeq
      have ihm := ih hm happly
      unfold lastUpsert
      simp only [List.map_cons, List.flatten_cons, List.filter_append,
        List.getLast?_append]
      cases hrest : (((rest.map PointInsertOperations.points).flatten).filter
          (fun p => p.id = i)).getLast? with
      | some q =>
        have hrest' : lastUpsert i rest = some q := by
          unfold lastUpsert
          exact hrest
        constructor
        · intro p hp
          simp only [hrest, Option.or] at hp
          cases hp
          exact ihm.1 q hrest'
        · intro hp
          simp [hrest, Option.or] at hp
      | none =>
        have hrest' : lastUpsert i rest = none := by
          unfold lastUpsert
          exact hrest
        cases hoside : ((o.points).filter (fun q => q.id = i)).getLast? with
        | some p =>
          constructor
          · intro p' hp'
            simp only [hrest, hoside, Option.or] at hp'
            cases hp'
            exact List.perm_singleton.mp
              ((ihm.2 hrest').trans (List.Perm.of_eq (hups.1 p hoside)))
          · intro hp
            simp [hrest, hoside, Option.or] at hp
        | none =>
          constructor
          · intro p' hp'
            simp [hrest, hoside, Option.or] at hp'
          · intro _
            exact (ihm.2 hrest').trans (hups.2 hoside)

theorem dedupByKey_length_le_one (key : α → PointIdType) {l : List α}
    {i : PointIdType} (h : ∀ x ∈ l, key x = i) :
    (dedupByKey key [] l).length ≤ 1 := by
  cases l with
  | nil => simp [dedupByKey]
  | cons p rest =>
    rw [dedupByKey_same_key key ?_]
    · simp
    · intro x hx
      rw [h x (List.mem_cons_of_mem _ hx), h p (List.mem_cons_self _ _)]

/-- C5: after any sequence of upsert operations successfully applied to the
collection, retrieving any point id returns at most one record, and when the
id was upserted the record's vector and payload are those of the most recent
upsert for that id. -/
theorem retrieve_last_upsert (h0 h' : SegmentHolder)
    (ops : List PointInsertOperations)
    (happly : h0.applyAll
      (ops.map (fun o => .pointOperation (.upsertPoints o))) = .ok h')
    (i : PointIdType) :
    (h'.retrieve [i] true true).length ≤ 1 ∧
    (∀ p, lastUpsert i ops = some p →
      h'.retrieve [i] true true =
        [{ id := i, payload := p.payload, vector := some p.vector }]) := by
  have htrack := applyAll_upserts_pointsWithId ops h0 h' i happly
  have hfilter : h'.allPoints.filter (fun q => [i].contains q.id) =
      h'.pointsWithId i := by
    unfold SegmentHolder.pointsWithId
    apply List.filter_congr
    intro q _
    by_cases hq : q.id = i <;> simp [hq]
  constructor
  · unfold SegmentHolder.retrieve
    rw [List.length_map, hfilter]
    apply dedupByKey_length_le_one PointStruct.id (i := i)
    intro q hq
    have := List.mem_filter.mp hq
    simpa using this.2
  · intro p hp
    have hocc := htrack.1 p hp
    unfold SegmentHolder.retrieve
    rw [hfilter, hocc]
    have hpid : p.id = i := by
      have hmem : p ∈ h'.pointsWithId i := by
        rw [hocc]
        exact List.mem_cons_self _ _
      have := List.mem_filter.mp hmem
      simpa using this.2
    simp [dedupByKey, recordFrom, hpid]

/-- Witness for `retrieve_last_upsert`: one upsert into the fixture. -/
theorem retrieve_last_upsert_witness :
    (witnessHolder.retrieve [1] true true).length ≤ 1 ∧
    (∀ p, lastUpsert 1 [.pointsList [⟨1, [5], none⟩]] = some p →
      witnessHolder.retrieve [1] true true =
        [{ id := 1, payload := p.payload, vector := some p.vector }]) :=
  retrieve_last_upsert simpleCollectionFixture.holder witnessHolder
    [.pointsList [⟨1, [5], none⟩]] (by decide) 1

/-! ### Scroll pipeline lemmas -/

theorem idSorted_pairwise_strict (h : SegmentHolder) :
    h.idSorted.Pairwise (fun p q => p.id < q.id) := by
  have hs : (List.insertionSort idRel h.allPoints).Pairwise idRel :=
    List.sorted_insertionSort idRel h.allPoints
  have hd : h.idSorted.Pairwise idRel :=
    List.Pairwise.sublist (dedupByKey_sublist PointStruct.id _ _) hs
  have hne : h.idSorted.Pairwise (fun p q => p.id ≠ q.id) :=
    List.pairwise_map.mp (nodup_keys_dedupByKey PointStruct.id [] _)
  refine (hd.and hne).imp ?_
  rintro p q ⟨hle, hne'⟩
  exact lt_of_le_of_ne hle hne'

theorem idSorted_mem_ids (h : SegmentHolder) (i : PointIdType) :
    i ∈ h.idSorted.map PointStruct.id ↔ h.hasLivePoint i = true := by
  constructor
  · intro hi
    rcases List.mem_map.mp hi with ⟨p, hp, hpi⟩
    have hp1 := (mem_dedupByKey PointStruct.id hp).1
    have hp2 := (List.mem_insertionSort idRel).mp hp1
    unfold SegmentHolder.hasLivePoint
    apply List.any_eq_true.mpr
    exact ⟨p, hp2, by simpa using hpi⟩
  · intro hi
    have hex : ∃ p ∈ h.allPoints, p.id = i := by
      simpa [SegmentHolder.hasLivePoint] using hi
    rcases hex with ⟨p, hp, hpi⟩
    apply mem_keys_dedupByKey PointStruct.id ?_ (List.not_mem_nil _)
    apply List.mem_map.mpr
    exact ⟨p, (List.mem_insertionSort idRel).mpr hp, hpi⟩

theorem scrollStream_pairwise_strict (h : SegmentHolder)
    (off : Option PointIdType) :
    (h.scrollStream off).Pairwise (fun p q => p.id < q.id) :=
  List.Pairwise.sublist (List.filter_sublist _) (idSorted_pairwise_strict h)

theorem scrollBy_points_eq (h : SegmentHolder) (off : Option PointIdType)
    (k : Nat) :
    (h.scrollBy (pageRequest off k)).points =
      ((h.scrollStream off).take k).map (recordFrom false false) := by
  have hfil : h.idSorted.filter
      (fun p => offsetLE off p.id && checkOptFilter none p) =
      h.idSorted.filter (fun p => offsetLE off p.id) := by
    apply List.filter_congr
    intro p _
    simp [checkOptFilter]
  unfold SegmentHolder.scrollBy pageRequest SegmentHolder.scrollStream
  simp only [Option.getD_some, Option.getD_none]
  rw [hfil]

theorem scrollBy_next_eq (h : SegmentHolder) (off : Option PointIdType)
    (k : Nat) :
    (h.scrollBy (pageRequest off k)).nextPageOffset =
      (((h.scrollStream off).drop k).head?).map (fun p => p.id) := by
  have hfil : h.idSorted.filter
      (fun p => offsetLE off p.id && checkOptFilter none p) =
      h.idSorted.filter (fun p => offsetLE off p.id) := by
    apply List.filter_congr
    intro p _
    simp [checkOptFilter]
  unfold SegmentHolder.scrollBy pageRequest SegmentHolder.scrollStream
  simp only [Option.getD_some]
  rw [hfil]

theorem filter_offset_drop (l : List PointStruct)
    (hstrict : l.Pairwise (fun p q => p.id < q.id))
    (off : Option PointIdType) (k : Nat) (q : PointStruct)
    (hq : ((l.filter (fun p => offsetLE off p.id)).drop k).head? = some q) :
    l.filter (fun p => offsetLE (some q.id) p.id) =
      (l.filter (fun p => offsetLE off p.id)).drop k := by
  set rem := l.filter (fun p => offsetLE off p.id) with hrem
  have hqdrop : q ∈ rem.drop k := by
    rcases List.head?_eq_some_iff.mp hq with ⟨ys, hys⟩
    rw [hys]
    exact List.mem_cons_self _ _
  have hqrem : q ∈ rem := (List.drop_sublist k rem).mem hqdrop
  have hqoff : offsetLE off q.id = true := by
    rw [hrem] at hqrem
    exact (List.mem_filter.mp hqrem).2
  have hstep1 : l.filter (fun p => offsetLE (some q.id) p.id) =
      rem.filter (fun p => offsetLE (some q.id) p.id) := by
    rw [hrem, List.filter_filter]
    apply List.filter_congr
    intro p _
    by_cases hp : q.id ≤ p.id
    · have hp0 : offsetLE off p.id = true := by
        cases off with
        | none => rfl
        | some o =>
          have ho : o ≤ q.id := by simpa [offsetLE] using hqoff
          simp only [offsetLE, decide_eq_true_eq]
          exact le_trans ho hp
      rw [hp0, Bool.and_true]
    · simp [offsetLE, hp]
  have hpwrem : rem.Pairwise (fun p q => p.id < q.id) :=
    List.Pairwise.sublist (List.filter_sublist _) hstrict
  have hpw2 := hpwrem
  rw [← List.take_append_drop k rem] at hpw2
  obtain ⟨hpwtake, hpwdrop, hcross⟩ := List.pairwise_append.mp hpw2
  have htake : (rem.take k).filter
      (fun p => offsetLE (some q.id) p.id) = [] := by
    apply List.filter_eq_nil_iff.mpr
    intro p hp
    have hlt : p.id < q.id := hcross p hp q hqdrop
    simp only [offsetLE, decide_eq_true_eq]
    exact Nat.not_le.mpr hlt
  have hdropfull : (rem.drop k).filter
      (fun p => offsetLE (some q.id) p.id) = rem.drop k := by
    apply List.filter_eq_self.mpr
    intro p hp
    rcases List.head?_eq_some_iff.mp hq with ⟨ys, hys⟩
    rw [hys] at hp hpwdrop
    rcases List.mem_cons.mp hp with rfl | hp'
    · simp [offsetLE]
    · have hlt : q.id < p.id := (List.pairwise_cons.mp hpwdrop).1 p hp'
      simp only [offsetLE, decide_eq_true_eq]
      exact le_of_lt hlt
  rw [hstep1, ← List.take_append_drop k rem, List.filter_append, htake,
    hdropfull, List.nil_append, List.take_append_drop]

theorem scrollAll_eq (h : SegmentHolder) (k : Nat) (hk : 0 < k) :
    ∀ (fuel : Nat) (off : Option PointIdType),
    (h.scrollStream off).length ≤ fuel →
    h.scrollAll k fuel off =
      (h.scrollStream off).map (recordFrom false false) := by
  intro fuel
  induction fuel with
  | zero =>
    intro off hfuel
    have hnil : h.scrollStream off = [] :=
      List.eq_nil_of_length_eq_zero (Nat.le_zero.mp hfuel)
    unfold SegmentHolder.scrollAll
    rw [hnil]
    rfl
  | succ fuel ih =>
    intro off hfuel
    cases hnext : ((h.scrollStream off).drop k).head? with
    | none =>
      have hnone : (h.scrollBy (pageRequest off k)).nextPageOffset = none := by
        rw [scrollBy_next_eq]
        rw [show (((h.scrollStream off).drop k).head?) = none from hnext]
        rfl
      unfold SegmentHolder.scrollAll
      rw [hnone, scrollBy_points_eq]
      have hdropnil : (h.scrollStream off).drop k = [] :=
        List.head?_eq_none_iff.mp hnext
      rw [List.take_of_length_le (List.drop_eq_nil_iff.mp hdropnil)]
    | some q =>
      have hsome : (h.scrollBy (pageRequest off k)).nextPageOffset =
          some q.id := by
        rw [scrollBy_next_eq]
        rw [show (((h.scrollStream off).drop k).head?) = some q from hnext]
        rfl
      have hstream : h.scrollStream (some q.id) =
          (h.scrollStream off).drop k :=
        filter_offset_drop h.idSorted (idSorted_pairwise_strict h) off k q
          hnext
      have hfuel2 : (h.scrollStream (some q.id)).length ≤ fuel := by
        rw [hstream, List.length_drop]
        omega
      have hstep : h.scrollAll k (fuel + 1) off =
          (h.scrollBy (pageRequest off k)).points ++
            h.scrollAll k fuel (some q.id) := by
        simp only [SegmentHolder.scrollAll]
        rw [hsome]
      rw [hstep, scrollBy_points_eq, ih (some q.id) hfuel2, hstream,
        ← List.map_append, List.take_append_drop]

/-- C3: a scroll page from `offset` returns at most `limit` live points in
strictly ascending id order, all of them at or past the offset;
`next_page_offset` is `None` exactly when nothing was left out, and
otherwise names the next live point, so that every live id at or past the
offset is either on the page or at or past the next offset; repeatedly
scrolling with a fixed positive limit from `None` until `next_page_offset`
is `None` visits every live point exactly once, in ascending id order. -/
theorem scroll_spec (h : SegmentHolder) (k fuel : Nat)
    (off : Option PointIdType) (hk : 0 < k)
    (hfuel : h.idSorted.length ≤ fuel) :
    (h.scrollBy (pageRequest off k)).points.length ≤ k ∧
    (h.scrollBy (pageRequest off k)).points.Pairwise
      (fun a b => a.id < b.id) ∧
    (∀ r ∈ (h.scrollBy (pageRequest off k)).points,
      offsetLE off r.id = true ∧ h.hasLivePoint r.id = true) ∧
    ((h.scrollBy (pageRequest off k)).nextPageOffset = none →
      ∀ i, h.hasLivePoint i = true → offsetLE off i = true →
        i ∈ (h.scrollBy (pageRequest off k)).points.map Record.id) ∧
    (∀ o, (h.scrollBy (pageRequest off k)).nextPageOffset = some o →
      h.hasLivePoint o = true ∧
      (∀ r ∈ (h.scrollBy (pageRequest off k)).points, r.id < o) ∧
      (∀ i, h.hasLivePoint i = true → offsetLE off i = true → i < o →
        i ∈ (h.scrollBy (pageRequest off k)).points.map Record.id)) ∧
    ((h.scrollAll k fuel none).map Record.id).Pairwise (· < ·) ∧
    (∀ i, i ∈ (h.scrollAll k fuel none).map Record.id ↔
      h.hasLivePoint i = true) := by
  have hpts := scrollBy_points_eq h off k
  have hnext := scrollBy_next_eq h off k
  have hstrict : (h.scrollStream off).Pairwise (fun p q => p.id < q.id) :=
    scrollStream_pairwise_strict h off
  have hid : ∀ (l : List PointStruct),
      (l.map (recordFrom false false)).map Record.id =
        l.map PointStruct.id := by
    intro l
    rw [List.map_map]
    rfl
  have hmemstream : ∀ p ∈ h.scrollStream off,
      offsetLE off p.id = true ∧ p ∈ h.idSorted := by
    intro p hp
    have := List.mem_filter.mp hp
    exact ⟨this.2, this.1⟩
  have hlive : ∀ p ∈ h.idSorted, h.hasLivePoint p.id = true := by
    intro p hp
    exact (idSorted_mem_ids h p.id).mp (List.mem_map.mpr ⟨p, hp, rfl⟩)
  have hinto : ∀ i, h.hasLivePoint i = true → offsetLE off i = true →
      ∃ p ∈ h.scrollStream off, p.id = i := by
    intro i hi hoff
    rcases List.mem_map.mp ((idSorted_mem_ids h i).mpr hi) with ⟨p, hp, hpi⟩
    refine ⟨p, ?_, hpi⟩
    apply List.mem_filter.mpr
    exact ⟨hp, by rw [hpi]; exact hoff⟩
  refine ⟨?_, ?_, ?_, ?_, ?_, ?_, ?_⟩
  · rw [hpts, List.length_map]
    exact (List.length_take _ _).trans_le (min_le_left _ _)
  · rw [hpts]
    apply List.pairwise_map.mpr
    exact (List.Pairwise.sublist (List.take_sublist _ _) hstrict).imp
      (fun hab => hab)
  · intro r hr
    rw [hpts] at hr
    rcases List.mem_map.mp hr with ⟨p, hp, hrp⟩
    have hps := hmemstream p ((List.take_sublist _ _).mem hp)
    subst hrp
    exact ⟨hps.1, hlive p hps.2⟩
  · intro hnone i hi hoff
    rw [hnext] at hnone
    have hhead : ((h.scrollStream off).drop k).head? = none :=
      Option.map_eq_none.mp hnone
    have hdropnil := List.head?_eq_none_iff.mp hhead
    have htakeall : (h.scrollStream off).take k = h.scrollStream off :=
      List.take_of_length_le (List.drop_eq_nil_iff.mp hdropnil)
    rcases hinto i hi hoff with ⟨p, hp, hpi⟩
    rw [hpts, hid, htakeall]
    exact List.mem_map.mpr ⟨p, hp, hpi⟩
  · intro o ho
    rw [hnext] at ho
    rcases Option.map_eq_some.mp ho with ⟨q, hq, hqo⟩
    have hqdrop : q ∈ (h.scrollStream off).drop k := by
      rcases List.head?_eq_some_iff.mp hq with ⟨ys, hys⟩
      rw [hys]
      exact List.mem_cons_self _ _
    have hqmem : q ∈ h.scrollStream off :=
      (List.drop_sublist _ _).mem hqdrop
    have hsplit := hstrict
    rw [← List.take_append_drop k (h.scrollStream off)] at hsplit
    obtain ⟨hpwtake, hpwdrop, hcross⟩ := List.pairwise_append.mp hsplit
    refine ⟨?_, ?_, ?_⟩
    · exact hqo ▸ hlive q (hmemstream q hqmem).2
    · intro r hr
      rw [hpts] at hr
      rcases List.mem_map.mp hr with ⟨p, hp, hrp⟩
      subst hrp
      have hlt : p.id < q.id := hcross p hp q hqdrop
      exact hqo ▸ hlt
    · intro i hi hoff hio
      rcases hinto i hi hoff with ⟨p, hp, hpi⟩
      have hp2 := hp
      rw [← List.take_append_drop k (h.scrollStream off)] at hp2
      rcases List.mem_append.mp hp2 with hptake | hpdrop
      · rw [hpts, hid]
        exact List.mem_map.mpr ⟨p, hptake, hpi⟩
      · exfalso
        rcases List.head?_eq_some_iff.mp hq with ⟨ys, hys⟩
        rw [hys] at hpdrop hpwdrop
        rcases List.mem_cons.mp hpdrop with hpq | hpys
        · have hio' : i = o := by rw [← hpi, hpq, hqo]
          rw [hio'] at hio
          exact Nat.lt_irrefl o hio
        · have hlt : q.id < p.id := (List.pairwise_cons.mp hpwdrop).1 p hpys
          have h1 : o < i := by rw [← hqo, ← hpi]; exact hlt
          exact Nat.lt_asymm hio h1
  · have hstnone : h.scrollStream none = h.idSorted := by
      unfold SegmentHolder.scrollStream
      apply List.filter_eq_self.mpr
      intro p _
      rfl
    have hall := scrollAll_eq h k hk fuel none (by rw [hstnone]; exact hfuel)
    rw [hall, hstnone, hid]
    apply List.pairwise_map.mpr
    exact (idSorted_pairwise_strict h).imp (fun hab => hab)
  · intro i
    have hstnone : h.scrollStream none = h.idSorted := by
      unfold SegmentHolder.scrollStream
      apply List.filter_eq_self.mpr
      intro p _
      rfl
    have hall := scrollAll_eq h k hk fuel none (by rw [hstnone]; exact hfuel)
    rw [hall, hstnone, hid]
    exact idSorted_mem_ids h i

/-- Witness for `scroll_spec`: page size 1 over the two-point two-segment
holder. -/
theorem scroll_spec_witness :
    (witnessHolderAB.scrollBy (pageRequest none 1)).points.length ≤ 1 ∧
    (witnessHolderAB.scrollBy (pageRequest none 1)).points.Pairwise
      (fun a b => a.id < b.id) ∧
    (∀ r ∈ (witnessHolderAB.scrollBy (pageRequest none 1)).points,
      offsetLE none r.id = true ∧
        witnessHolderAB.hasLivePoint r.id = true) ∧
    ((witnessHolderAB.scrollBy (pageRequest none 1)).nextPageOffset = none →
      ∀ i, witnessHolderAB.hasLivePoint i = true → offsetLE none i = true →
        i ∈ (witnessHolderAB.scrollBy
          (pageRequest none 1)).points.map Record.id) ∧
    (∀ o, (witnessHolderAB.scrollBy (pageRequest none 1)).nextPageOffset =
        some o →
      witnessHolderAB.hasLivePoint o = true ∧
      (∀ r ∈ (witnessHolderAB.scrollBy (pageRequest none 1)).points,
        r.id < o) ∧
      (∀ i, witnessHolderAB.hasLivePoint i = true →
        offsetLE none i = true → i < o →
        i ∈ (witnessHolderAB.scrollBy
          (pageRequest none 1)).points.map Record.id)) ∧
    ((witnessHolderAB.scrollAll 1 2 none).map Record.id).Pairwise (· < ·) ∧
    (∀ i, i ∈ (witnessHolderAB.scrollAll 1 2 none).map Record.id ↔
      witnessHolderAB.hasLivePoint i = true) :=
  scroll_spec witnessHolderAB 1 2 none (by decide) (by decide)

/-! ### Serialization round-trip lemmas -/

theorem mapM_map_eq_some {f : α → β} {dec : β → Option α} {l : List α}
    (hdec : ∀ a ∈ l, dec (f a) = some a) :
    (l.map f).mapM dec = some l := by
  induction l with
  | nil => rfl
  | cons a as ih =>
    rw [List.map_cons, List.mapM_cons, hdec a (List.mem_cons_self _ _),
      ih (fun x hx => hdec x (List.mem_cons_of_mem _ hx))]
    rfl

theorem decPayloadJson_enc (m : TheMap) :
    decPayloadJson (encPayloadJson m) = some m := by
  show (m.map (fun kv => (kv.1, JsonValue.str kv.2))).mapM
    decPayloadEntryJson = some m
  exact mapM_map_eq_some (fun a _ => rfl)

theorem decOptPayloadJson_enc (o : Option TheMap) :
    decOptJson decPayloadJson (encOptJson encPayloadJson o) = some o := by
  cases o with
  | none => rfl
  | some m =>
    show (decPayloadJson (encPayloadJson m)).map some = some (some m)
    rw [decPayloadJson_enc]
    rfl

theorem natListJson (l : List Nat) :
    (l.map (fun i => JsonValue.int (Int.ofNat i))).mapM decNatJson =
      some l :=
  mapM_map_eq_some (fun _a _ => rfl)

theorem decVectorJson_enc (v : VectorType) :
    decVectorJson (encVectorJson v) = some v := by
  show (v.map (fun x => JsonValue.int x)).mapM decIntJson = some v
  exact mapM_map_eq_some (fun a _ => rfl)

theorem vecListJson (vs : List VectorType) :
    (vs.map encVectorJson).mapM decVectorJson = some vs :=
  mapM_map_eq_some (fun a _ => decVectorJson_enc a)

theorem decPointJson_enc (p : PointStruct) :
    decPointJson (encPointJson p) = some p := by
  show (do
    let i ← decNatJson (.int (Int.ofNat p.id))
    let v ← decVectorJson (encVectorJson p.vector)
    let pl ← decOptJson decPayloadJson (encOptJson encPayloadJson p.payload)
    some (⟨i, v, pl⟩ : PointStruct)) = some p
  rw [decVectorJson_enc, decOptPayloadJson_enc]
  rfl

theorem pointListJson (ps : List PointStruct) :
    (ps.map encPointJson).mapM decPointJson = some ps :=
  mapM_map_eq_some (fun a _ => decPointJson_enc a)

theorem decBatchJson_enc (b : Batch) :
    decBatchJson (encBatchJson b) = some b := by
  obtain ⟨ids, vectors, payloads⟩ := b
  cases payloads with
  | none =>
    show (do
      let is ← (ids.map (fun i => JsonValue.int (Int.ofNat i))).mapM
        decNatJson
      let vs ← (vectors.map encVectorJson).mapM decVectorJson
      let pls ← (some none : Option (Option (List (Option TheMap))))
      some (⟨is, vs, pls⟩ : Batch)) = some ⟨ids, vectors, none⟩
    rw [natListJson, vecListJson]
    rfl
  | some pls =>
    show (do
      let is ← (ids.map (fun i => JsonValue.int (Int.ofNat i))).mapM
        decNatJson
      let vs ← (vectors.map encVectorJson).mapM decVectorJson
      let ps ← ((pls.map (encOptJson encPayloadJson)).mapM
        (decOptJson decPayloadJson)).map some
      some (⟨is, vs, ps⟩ : Batch)) = some ⟨ids, vectors, some pls⟩
    rw [natListJson, vecListJson,
      mapM_map_eq_some (fun a _ => decOptPayloadJson_enc a)]
    rfl

theorem decConditionJson_enc (c : Condition) :
    decConditionJson (encConditionJson c) = some c := by
  cases c with
  | hasId hc =>
    show ((hc.hasId.map (fun i => JsonValue.int (Int.ofNat i))).mapM
      decNatJson).map (fun ids => Condition.hasId ⟨ids⟩) = some (.hasId hc)
    rw [natListJson]
    rfl

theorem decOptCondsJson_enc (o : Option (List Condition)) :
    decOptJson decCondListJson
      (encOptJson (fun cs => .arr (cs.map encConditionJson)) o) = some o := by
  cases o with
  | none => rfl
  | some cs =>
    show ((cs.map encConditionJson).mapM decConditionJson).map some =
      some (some cs)
    rw [mapM_map_eq_some (fun a _ => decConditionJson_enc a)]
    rfl

theorem decFilterJson_enc (f : Filter) :
    decFilterJson (encFilterJson f) = some f := by
  obtain ⟨s, m, n⟩ := f
  show (do
    let sv ← decOptJson decCondListJson
      (encOptJson (fun cs => .arr (cs.map encConditionJson)) s)
    let mv ← decOptJson decCondListJson
      (encOptJson (fun cs => .arr (cs.map encConditionJson)) m)
    let nv ← decOptJson decCondListJson
      (encOptJson (fun cs => .arr (cs.map encConditionJson)) n)
    some (⟨sv, mv, nv⟩ : Filter)) = some ⟨s, m, n⟩
  rw [decOptCondsJson_enc, decOptCondsJson_enc, decOptCondsJson_enc]
  rfl

theorem decInsertJson_enc (pio : PointInsertOperations) :
    decInsertJson (encInsertJson pio) = some pio := by
  cases pio with
  | batchPoints b =>
    show (decBatchJson (encBatchJson b)).map
      PointInsertOperations.batchPoints = some (.batchPoints b)
    rw [decBatchJson_enc]
    rfl
  | pointsList ps =>
    show ((ps.map encPointJson).mapM decPointJson).map
      PointInsertOperations.pointsList = some (.pointsList ps)
    rw [pointListJson]
    rfl

theorem decOperationJson_enc (op : CollectionUpdateOperations) :
    decOperationJson (encOperationJson op) = some op := by
  cases op with
  | pointOperation pop =>
    cases pop with
    | upsertPoints pio =>
      show (decInsertJson (encInsertJson pio)).map
        (fun pio => CollectionUpdateOperations.pointOperation
          (.upsertPoints pio)) =
        some (.pointOperation (.upsertPoints pio))
      rw [decInsertJson_enc]
      rfl
    | deletePoints ids =>
      show ((ids.map (fun i => JsonValue.int (Int.ofNat i))).mapM
        decNatJson).map
          (fun ids => CollectionUpdateOperations.pointOperation
            (.deletePoints ids)) =
        some (.pointOperation (.deletePoints ids))
      rw [natListJson]
      rfl
    | deletePointsByFilter f =>
      show (decFilterJson (encFilterJson f)).map
        (fun f => CollectionUpdateOperations.pointOperation
          (.deletePointsByFilter f)) =
        some (.pointOperation (.deletePointsByFilter f))
      rw [decFilterJson_enc]
      rfl
  | payloadOperation pop =>
    cases pop with
    | setPayload sp =>
      show (do
        let pl ← decPayloadJson (encPayloadJson sp.payload)
        let pts ← (sp.points.map (fun i => JsonValue.int (Int.ofNat i))).mapM
          decNatJson
        some (CollectionUpdateOperations.payloadOperation
          (.setPayload ⟨pl, pts⟩))) =
        some (.payloadOperation (.setPayload sp))
      rw [decPayloadJson_enc, natListJson]
      rfl
    | clearPayload pts =>
      show ((pts.map (fun i => JsonValue.int (Int.ofNat i))).mapM
        decNatJson).map
          (fun pts => CollectionUpdateOperations.payloadOperation
            (.clearPayload pts)) =
        some (.payloadOperation (.clearPayload pts))
      rw [natListJson]
      rfl

theorem decPayloadMp_enc (m : TheMap) :
    decPayloadMp (encPayloadMp m) = some m := by
  show (m.map (fun kv => MpValue.arr [.str kv.1, .str kv.2])).mapM
    decPayloadEntryMp = some m
  exact mapM_map_eq_some (fun a _ => rfl)

theorem decOptPayloadMp_enc (o : Option TheMap) :
    decOptMp decPayloadMp (encOptMp encPayloadMp o) = some o := by
  cases o with
  | none => rfl
  | some m =>
    show (decPayloadMp (encPayloadMp m)).map some = some (some m)
    rw [decPayloadMp_enc]
    rfl

theorem natListMp (l : List Nat) :
    (l.map (fun i => MpValue.int (Int.ofNat i))).mapM decNatMp = some l :=
  mapM_map_eq_some (fun _a _ => rfl)

theorem decVectorMp_enc (v : VectorType) :
    decVectorMp (encVectorMp v) = some v := by
  show (v.map (fun x => MpValue.int x)).mapM decIntMp = some v
  exact mapM_map_eq_some (fun a _ => rfl)

theorem vecListMp (vs : List VectorType) :
    (vs.map encVectorMp).mapM decVectorMp = some vs :=
  mapM_map_eq_some (fun a _ => decVectorMp_enc a)

theorem decPointMp_enc (p : PointStruct) :
    decPointMp (encPointMp p) = some p := by
  show (do
    let i ← decNatMp (.int (Int.ofNat p.id))
    let v ← decVectorMp (encVectorMp p.vector)
    let pl ← decOptMp decPayloadMp (encOptMp encPayloadMp p.payload)
    some (⟨i, v, pl⟩ : PointStruct)) = some p
  rw [decVectorMp_enc, decOptPayloadMp_enc]
  rfl

theorem pointListMp (ps : List PointStruct) :
    (ps.map encPointMp).mapM decPointMp = some ps :=
  mapM_map_eq_some (fun a _ => decPointMp_enc a)

theorem decBatchMp_enc (b : Batch) :
    decBatchMp (encBatchMp b) = some b := by
  obtain ⟨ids, vectors, payloads⟩ := b
  cases payloads with
  | none =>
    show (do
      let is ← (ids.map (fun i => MpValue.int (Int.ofNat i))).mapM decNatMp
      let vs ← (vectors.map encVectorMp).mapM decVectorMp
      let pls ← (some none : Option (Option (List (Option TheMap))))
      some (⟨is, vs, pls⟩ : Batch)) = some ⟨ids, vectors, none⟩
    rw [natListMp, vecListMp]
    rfl
  | some pls =>
    show (do
      let is ← (ids.map (fun i => MpValue.int (Int.ofNat i))).mapM decNatMp
      let vs ← (vectors.map encVectorMp).mapM decVectorMp
      let ps ← ((pls.map (encOptMp encPayloadMp)).mapM
        (decOptMp decPayloadMp)).map some
      some (⟨is, vs, ps⟩ : Batch)) = some ⟨ids, vectors, some pls⟩
    rw [natListMp, vecListMp,
      mapM_map_eq_some (fun a _ => decOptPayloadMp_enc a)]
    rfl

theorem decConditionMp_enc (c : Condition) :
    decConditionMp (encConditionMp c) = some c := by
  cases c with
  | hasId hc =>
    show ((hc.hasId.map (fun i => MpValue.int (Int.ofNat i))).mapM
      decNatMp).map (fun ids => Condition.hasId ⟨ids⟩) = some (.hasId hc)
    rw [natListMp]
    rfl

theorem decOptCondsMp_enc (o : Option (List Condition)) :
    decOptMp decCondListMp
      (encOptMp (fun cs => .arr (cs.map encConditionMp)) o) = some o := by
  cases o with
  | none => rfl
  | some cs =>
    show ((cs.map encConditionMp).mapM decConditionMp).map some =
      some (some cs)
    rw [mapM_map_eq_some (fun a _ => decConditionMp_enc a)]
    rfl

theorem decFilterMp_enc (f : Filter) :
    decFilterMp (encFilterMp f) = some f := by
  obtain ⟨s, m, n⟩ := f
  show (do
    let sv ← decOptMp decCondListMp
      (encOptMp (fun cs => .arr (cs.map encConditionMp)) s)
    let mv ← decOptMp decCondListMp
      (encOptMp (fun cs => .arr (cs.map encConditionMp)) m)
    let nv ← decOptMp decCondListMp
      (encOptMp (fun cs => .arr (cs.map encConditionMp)) n)
    some (⟨sv, mv, nv⟩ : Filter)) = some ⟨s, m, n⟩
  rw [decOptCondsMp_enc, decOptCondsMp_enc, decOptCondsMp_enc]
  rfl

theorem decInsertMp_enc (pio : PointInsertOperations) :
    decInsertMp (encInsertMp pio) = some pio := by
  cases pio with
  | batchPoints b =>
    show (decBatchMp (encBatchMp b)).map
      PointInsertOperations.batchPoints = some (.batchPoints b)
    rw [decBatchMp_enc]
    rfl
  | pointsList ps =>
    show ((ps.map encPointMp).mapM decPointMp).map
      PointInsertOperations.pointsList = some (.pointsList ps)
    rw [pointListMp]
    rfl

theorem decOperationMp_enc (op : CollectionUpdateOperations) :
    decOperationMp (encOperationMp op) = some op := by
  cases op with
  | pointOperation pop =>
    cases pop with
    | upsertPoints pio =>
      show (decInsertMp (encInsertMp pio)).map
        (fun pio => CollectionUpdateOperations.pointOperation
          (.upsertPoints pio)) =
        some (.pointOperation (.upsertPoints pio))
      rw [decInsertMp_enc]
      rfl
    | deletePoints ids =>
      show ((ids.map (fun i => MpValue.int (Int.ofNat i))).mapM
        decNatMp).map
          (fun ids => CollectionUpdateOperations.pointOperation
            (.deletePoints ids)) =
        some (.pointOperation (.deletePoints ids))
      rw [natListMp]
      rfl
    | deletePointsByFilter f =>
      show (decFilterMp (encFilterMp f)).map
        (fun f => CollectionUpdateOperations.pointOperation
          (.deletePointsByFilter f)) =
        some (.pointOperation (.deletePointsByFilter f))
      rw [decFilterMp_enc]
      rfl
  | payloadOperation pop =>
    cases pop with
    | setPayload sp =>
      show (do
        let pl ← decPayloadMp (encPayloadMp sp.payload)
        let pts ← (sp.points.map (fun i => MpValue.int (Int.ofNat i))).mapM
          decNatMp
        some (CollectionUpdateOperations.payloadOperation
          (.setPayload ⟨pl, pts⟩))) =
        some (.payloadOperation (.setPayload sp))
      rw [decPayloadMp_enc, natListMp]
      rfl
    | clearPayload pts =>
      show ((pts.map (fun i => MpValue.int (Int.ofNat i))).mapM
        decNatMp).map
          (fun pts => CollectionUpdateOperations.payloadOperation
            (.clearPayload pts)) =
        some (.payloadOperation (.clearPayload pts))
      rw [natListMp]
      rfl

/-- C10: serializing any `CollectionUpdateOperations` value (in particular
both the `Batch` form and the list-of-`PointStruct` form of an upsert) to
JSON or to MessagePack and deserializing the bytes back always succeeds and
returns the original value. -/
theorem operations_serialization_roundtrip (op : CollectionUpdateOperations) :
    decOperationJson (encOperationJson op) = some op ∧
    decOperationMp (encOperationMp op) = some op :=
  ⟨decOperationJson_enc op, decOperationMp_enc op⟩

end Qdrant
